import Mathlib

/-!
Verification of the foundry media-pipeline core against its source.

The Rust source is embedded shallowly:

* machine integers are `Nat`/`Int` with explicit wrapping (`% 2^w`) exactly
  where the source casts (`as u32`, `as i16`, ...);
* byte buffers (`&[u8]`, `Vec<u8>`, `Bytes`) are `List Nat` whose elements
  are byte values; the little-endian readers reduce their input modulo 256,
  which coincides with the source on genuine byte buffers;
* `f64` fields that are only moved byte-for-byte (`start_ms` on the AUD0
  wire, `src/src/session.rs`) are carried as their 64-bit IEEE-754 bit
  pattern, a `Nat < 2^64`; `f64` values the mixer and the player do
  arithmetic on are carried as exact rationals `ℚ` (the claims at stake are
  about bucketing, saturation and ordering, not float rounding, and every
  concrete value used below is exactly representable in `f64`);
* fallible code returns `Option`; `Instant` timestamps are `Nat`
  milliseconds passed explicitly to each step;
* the async session loops are transition systems: each firing of a
  `tokio::select!` arm is one event, and a session transcript is the list
  of messages the producer and inbound tasks push into the outbound
  channel, in order.  The drainer's periodic plain-text heartbeats and
  channel-send failures (which only truncate a transcript) are not
  modelled.
-/

namespace Foundry

/-- `v.to_le_bytes()` truncated to `n` bytes: little-endian, least significant
byte first (models `u32::to_le_bytes`, `f64::to_le_bytes` on the bit pattern,
and the `as u32` length truncation in `build_audio_chunk`). -/
def leBytes : Nat → Nat → List Nat
  | 0, _ => []
  | n + 1, v => v % 256 :: leBytes n (v / 256)

/-- Little-endian value of a byte list (models `u32::from_le_bytes` and the
`f64` bit pattern read); each element is reduced mod 256, which is the
identity on genuine byte buffers. -/
def leNum : List Nat → Nat
  | [] => 0
  | b :: rest => b % 256 + 256 * leNum rest

/-- `v.to_be_bytes()` truncated to `n` bytes: big-endian (models
`u32::to_be_bytes` in the AVCC length framing). -/
def beBytes (n v : Nat) : List Nat :=
  (leBytes n v).reverse

namespace Wire

/-- `MixerInput` (src/src/audio_mixer.rs) as read off the wire by
`parse_audio_chunk` (src/src/session.rs:123).  `start_ms` is the 64-bit IEEE
bit pattern of the `f64` field; `samples` are the i16 values as `Int`. -/
structure MixerInput where
  start_ms : Nat
  sample_rate : Nat
  channels : Nat
  samples : List Int
deriving DecidableEq

/-- `MixedChunk` (src/src/audio_mixer.rs) as serialized by
`build_audio_chunk` (src/src/session.rs:153); same wire-level reading. -/
structure MixedChunk where
  start_ms : Nat
  sample_rate : Nat
  channels : Nat
  samples : List Int
deriving DecidableEq

/-- `is_audio_magic` (src/src/session.rs:119): at least 4 bytes and the
leading bytes are the ASCII codes of AUD0, `[0x41, 0x55, 0x44, 0x30]`. -/
def is_audio_magic (buf : List Nat) : Bool :=
  decide (4 ≤ buf.length) && decide (buf.take 4 = [0x41, 0x55, 0x44, 0x30])

/-- Decode an i16 from two little-endian bytes
(`i16::from_le_bytes([b0, b1])`). -/
def i16OfLe (b0 b1 : Nat) : Int :=
  let v := b0 % 256 + 256 * (b1 % 256)
  if v < 32768 then (v : Int) else (v : Int) - 65536

/-- The `chunks_exact(2)` decoding loop of `parse_audio_chunk`
(src/src/session.rs:141): consecutive byte pairs to i16; a trailing odd byte
is dropped, as `chunks_exact` drops it. -/
def decodeSamples : List Nat → List Int
  | b0 :: b1 :: rest => i16OfLe b0 b1 :: decodeSamples rest
  | _ => []

/-- `i16::to_le_bytes` of a sample (two's complement, little-endian). -/
def encodeSample (s : Int) : List Nat :=
  leBytes 2 (s % 65536).toNat

/-- `parse_audio_chunk` (src/src/session.rs:123-151): check magic and a
24-byte header, read `start_ms : f64` (as bits), `sample_rate`, `channels`,
`sample_count : u32` little-endian, require `24 + 2 * sample_count` bytes,
decode exactly that many sample bytes.  Trailing bytes are ignored. -/
def parse_audio_chunk (buf : List Nat) : Option MixerInput :=
  if is_audio_magic buf = true ∧ 24 ≤ buf.length then
    if 24 + 2 * leNum ((buf.drop 20).take 4) ≤ buf.length then
      some { start_ms := leNum ((buf.drop 4).take 8)
             sample_rate := leNum ((buf.drop 12).take 4)
             channels := leNum ((buf.drop 16).take 4)
             samples := decodeSamples ((buf.drop 24).take
               (2 * leNum ((buf.drop 20).take 4))) }
    else none
  else none

/-- `build_audio_chunk` (src/src/session.rs:153-165): magic, `start_ms` bits,
`sample_rate`, `channels`, `samples.len() as u32` (truncating!), then the
samples little-endian. -/
def build_audio_chunk (c : MixedChunk) : List Nat :=
  [0x41, 0x55, 0x44, 0x30] ++ leBytes 8 c.start_ms ++ leBytes 4 c.sample_rate
    ++ leBytes 4 c.channels ++ leBytes 4 c.samples.length
    ++ c.samples.flatMap encodeSample

/-- The sample-count header field exactly as `parse_audio_chunk` reads it. -/
def sampleCountOf (buf : List Nat) : Nat :=
  leNum ((buf.drop 20).take 4)

/-- The chunk used by the C3 counterexample: 2^32 zero samples, whose length
does not survive the `as u32` cast in `build_audio_chunk`. -/
def bigChunk : MixedChunk :=
  { start_ms := 0, sample_rate := 48000, channels := 1
    samples := List.replicate (2 ^ 32) 0 }

/-- A small valid AUD0 buffer (one sample of value 100) with three trailing
garbage bytes, used as the C10 witness input. -/
def bufC10 : List Nat :=
  [0x41, 0x55, 0x44, 0x30] ++ List.replicate 16 0 ++ [1, 0, 0, 0]
    ++ [100, 0] ++ [9, 9, 9]

end Wire

namespace DS

/-- `MAX_PIXELS` (src/src/session.rs:18). -/
def MAX_PIXELS : Nat := 1920 * 1080

/-- `xcap::Frame` as the downsampler uses it: width, height, RGBA bytes. -/
structure Frame where
  width : Nat
  height : Nat
  raw : List Nat
deriving DecidableEq

/-- `DownsampledFrame` (src/src/session.rs:27). -/
structure DownsampledFrame where
  frame : Frame
  scale : Nat
deriving DecidableEq

/-- Bounded search for the least `s` with `n ≤ s * s`; called with enough
fuel this is the ceiling of the square root. -/
def ceilSqrtAux (n : Nat) : Nat → Nat → Nat
  | 0, s => s
  | fuel + 1, s => if n ≤ s * s then s else ceilSqrtAux n fuel (s + 1)

/-- `(n as f64).sqrt().ceil() as usize` (src/src/session.rs:53).  The `f64`
square root is correctly rounded, so its ceiling agrees with the integer
ceiling square root for every argument that can arise from realistic frame
dimensions; the model computes the integer ceiling square root. -/
def ceilSqrt (n : Nat) : Nat := ceilSqrtAux n (n + 1) 0

/-- The scale-search loop (src/src/session.rs:55-59):
`while scale < 16 && (src_w/scale)*(src_h/scale) > MAX_PIXELS { scale += 1 }`.
The loop runs at most 16 iterations, so fuel 16 is exact. -/
def scaleLoop (w h : Nat) : Nat → Nat → Nat
  | 0, s => s
  | fuel + 1, s =>
      if s < 16 ∧ MAX_PIXELS < (w / s) * (h / s) then scaleLoop w h fuel (s + 1)
      else s

/-- `scale = max(2, ceil(sqrt(ceil(pixels / MAX_PIXELS))))`
(src/src/session.rs:52-54). -/
def startScale (pixels : Nat) : Nat :=
  max 2 (ceilSqrt ((pixels + MAX_PIXELS - 1) / MAX_PIXELS))

/-- The scale selected by `Downsampler::downsample` before the zero-dimension
check (src/src/session.rs:50-60). -/
def chosenScale (w h : Nat) : Nat :=
  if MAX_PIXELS < w * h then scaleLoop w h 16 (startScale (w * h)) else 1

/-- Sum of one channel over a `scale × scale` source block
(src/src/session.rs:86-97); the u32 accumulator cannot overflow for byte
input (at most 256 · 255). -/
def boxSum (src : List Nat) (srcW scale x y c : Nat) : Nat :=
  ((List.range scale).map (fun ky =>
    ((List.range scale).map (fun kx =>
      src.getD (((y * scale + ky) * srcW + (x * scale + kx)) * 4 + c) 0)).sum)).sum

/-- The downsampled RGBA buffer, row-major, 4 channels per pixel
(src/src/session.rs:82-104); `acc / block_area` is a mean of bytes, so the
`as u8` cast is the identity. -/
def downsampledRaw (src : List Nat) (srcW dstW dstH scale : Nat) : List Nat :=
  (List.range dstH).flatMap fun y =>
    (List.range dstW).flatMap fun x =>
      (List.range 4).map fun c => boxSum src srcW scale x y c / (scale * scale)

/-- `Downsampler::downsample` (src/src/session.rs:44-116).  The caller-owned
scratch buffer is an optimization with no observable effect and is not
modelled. -/
def downsample (f : Frame) : DownsampledFrame :=
  let scale := chosenScale f.width f.height
  if scale ≤ 1 then ⟨f, 1⟩
  else if f.width / scale = 0 ∨ f.height / scale = 0 then ⟨f, 1⟩
  else ⟨⟨f.width / scale, f.height / scale,
    downsampledRaw f.raw f.width (f.width / scale) (f.height / scale) scale⟩,
    scale⟩

/-- The frame used by the C2 counterexample: 1 × 3000000 pixels. -/
def tallFrame : Frame := ⟨1, 3000000, List.replicate 12000000 0⟩

end DS

namespace Mixer

/-- `CHUNK_MS` (src/src/audio_mixer.rs:6). -/
def CHUNK_MS : Nat := 100

/-- `MAX_BUCKET_AGE_MS` (src/src/audio_mixer.rs:7). -/
def MAX_BUCKET_AGE_MS : Nat := 2000

/-- `MixerInput` (src/src/audio_mixer.rs:10); `start_ms : f64` carried as an
exact rational. -/
structure MixerInput where
  start_ms : ℚ
  sample_rate : Nat
  channels : Nat
  samples : List Int
deriving DecidableEq

/-- `MixedChunk` (src/src/audio_mixer.rs:18). -/
structure MixedChunk where
  start_ms : ℚ
  sample_rate : Nat
  channels : Nat
  samples : List Int
deriving DecidableEq

/-- `MixBucket` (src/src/audio_mixer.rs:25); `last_update : Instant` as
milliseconds. -/
structure MixBucket where
  start_ms : ℚ
  sample_rate : Nat
  channels : Nat
  sum : List Int
  max_len : Nat
  last_update : Nat
deriving DecidableEq

/-- The mixer task's private state: the `HashMap<u64, MixBucket>` as a
function, plus `last_prune`. -/
structure MixerState where
  buckets : Nat → Option MixBucket
  last_prune : Nat

/-- `i32::saturating_add` on in-range operands. -/
def satAddI32 (a b : Int) : Int := max (-(2 ^ 31)) (min (2 ^ 31 - 1) (a + b))

/-- The clip to i16 range at emission (src/src/audio_mixer.rs:85-87). -/
def clampI16 (v : Int) : Int := max (-32768) (min 32767 v)

/-- `sum.resize(samples.len(), 0)` followed by elementwise
`saturating_add` (src/src/audio_mixer.rs:69-78): the accumulator keeps its
tail beyond the contribution's length. -/
def satAccum : List Int → List Int → List Int
  | acc, [] => acc
  | [], s :: srest => satAddI32 0 s :: satAccum [] srest
  | a :: arest, s :: srest => satAddI32 a s :: satAccum arest srest

/-- `(input.start_ms / CHUNK_MS as f64).floor() as u64`
(src/src/audio_mixer.rs:53); the `as u64` cast saturates negatives to 0. -/
def msKey (q : ℚ) : Nat := (⌊q / (CHUNK_MS : ℚ)⌋).toNat

/-- The bucket the contribution lands in:
`buckets.entry(key).or_insert_with(...)` (src/src/audio_mixer.rs:55-62); a
freshly created bucket starts at `key * CHUNK_MS` and copies the
contributor's rate and channel count. -/
def bucket0 (now : Nat) (st : MixerState) (input : MixerInput) : MixBucket :=
  match st.buckets (msKey input.start_ms) with
  | some b => b
  | none => ⟨(msKey input.start_ms : ℚ) * (CHUNK_MS : ℚ), input.sample_rate,
      input.channels, [], 0, now⟩

/-- The bucket after accumulating a contribution
(src/src/audio_mixer.rs:69-79). -/
def contribBucket (now : Nat) (b0 : MixBucket) (input : MixerInput) : MixBucket :=
  ⟨b0.start_ms, b0.sample_rate, b0.channels, satAccum b0.sum input.samples,
    max b0.max_len input.samples.length, now⟩

/-- The chunk emitted after a contribution: the first `max_len` accumulator
entries, clipped (src/src/audio_mixer.rs:81-95). -/
def emittedChunk (b1 : MixBucket) : MixedChunk :=
  ⟨b1.start_ms, b1.sample_rate, b1.channels,
    (b1.sum.take b1.max_len).map clampI16⟩

/-- The occasional prune (src/src/audio_mixer.rs:97-102): when more than
`CHUNK_MS` has passed since the last prune, retain only buckets whose
`last_update` is at most `MAX_BUCKET_AGE_MS` old. -/
def pruneIfDue (now lastPrune : Nat) (bs : Nat → Option MixBucket) :
    MixerState :=
  if CHUNK_MS < now - lastPrune then
    ⟨fun k => match bs k with
      | some b =>
          if now - b.last_update ≤ MAX_BUCKET_AGE_MS then some b else none
      | none => none,
      now⟩
  else ⟨bs, lastPrune⟩

/-- One iteration of the mixer task's input loop
(src/src/audio_mixer.rs:48-103): skip non-mono input; find or create the
bucket (a freshly created bucket copies the contributor's rate and channel
count, so the mismatch test below can only fire for a pre-existing bucket,
leaving the map unchanged exactly as `continue` does); on mismatch skip;
otherwise accumulate, stamp `last_update`, emit the clipped chunk, and
prune if due. -/
def mixStep (now : Nat) (st : MixerState) (input : MixerInput) :
    MixerState × Option MixedChunk :=
  if input.channels ≠ 1 then (st, none)
  else
    let b0 := bucket0 now st input
    if b0.sample_rate ≠ input.sample_rate ∨ b0.channels ≠ input.channels then
      (st, none)
    else
      let b1 := contribBucket now b0 input
      (pruneIfDue now st.last_prune
        (fun k => if k = msKey input.start_ms then some b1 else st.buckets k),
       some (emittedChunk b1))

/-- The state when the mixer task starts (empty map, `last_prune = now`,
taken as time 0). -/
def initMixer : MixerState := ⟨fun _ => none, 0⟩

/-- Run the mixer loop over a list of timestamped inputs, collecting the
emitted chunks in order.  Between events the task is parked on
`rx.recv().await`, so the state is constant on input-free intervals. -/
def runFrom : MixerState → List (Nat × MixerInput) → MixerState × List MixedChunk
  | st, [] => (st, [])
  | st, (t, i) :: rest =>
      let out := mixStep t st i
      let r := runFrom out.1 rest
      (r.1, out.2.toList ++ r.2)

/-- A whole run from the initial state. -/
def runMixer (events : List (Nat × MixerInput)) : MixerState × List MixedChunk :=
  runFrom initMixer events

/-- A mixer state holding exactly one bucket, at key `msKey 0`, whose
one-entry accumulator carries `v`; the shape every state in the C4
counterexample run has.  All events there happen at time 0, so
`last_update = last_prune = 0`. -/
def singleBucketState (v : Int) : MixerState :=
  ⟨fun k => if k = msKey 0 then
      some ⟨(msKey 0 : ℚ) * (CHUNK_MS : ℚ), 48000, 1, [v], 1, 0⟩
    else none,
    0⟩

/-- A mono contribution of one maximal positive sample at bucket key 0. -/
def posInput : MixerInput := ⟨0, 48000, 1, [32767]⟩

/-- A mono contribution of one maximal negative sample at bucket key 0. -/
def negInput : MixerInput := ⟨0, 48000, 1, [-32767]⟩

/-- The single-sample input used by the C6 counterexample. -/
def quietInput : MixerInput := ⟨0, 48000, 1, [5]⟩

end Mixer

namespace Dec

/-- `symphonia`'s `AudioBufferRef` as `convert_to_i16` consumes it
(src/foundry-player/src/audio_decoder.rs:203): per-channel planes and the
frame count; F32 planes carried as exact rationals. -/
inductive AudioBufferRef where
  | F32 (chans : List (List ℚ)) (frames : Nat)
  | S16 (chans : List (List Int)) (frames : Nat)
  | S32 (chans : List (List Int)) (frames : Nat)
  | Other
deriving DecidableEq

/-- The channel selection of each loop body: `buf.chan(ch)[frame]` when
`ch < channels`, else `buf.chan(channels - 1)[frame]` (duplicate the last
channel).  Out-of-range reads default to `d` (the source would panic on a
zero-channel buffer; the theorems assume at least one channel). -/
def pick (chans : List (List α)) (d : α) (ch frame : Nat) : α :=
  (chans.getD (if ch < chans.length then ch else chans.length - 1) []).getD frame d

/-- Rust float-to-int `as` conversion: truncation toward zero (the cast also
saturates, but every value cast here is already in range). -/
def truncToInt (q : ℚ) : Int := if 0 ≤ q then ⌊q⌋ else ⌈q⌉

/-- `sample.clamp(-1.0, 1.0)`. -/
def clampQ (lo hi q : ℚ) : ℚ := max lo (min hi q)

/-- `convert_to_i16` (src/foundry-player/src/audio_decoder.rs:203-262):
interleave `target_channels` values per frame; F32 is clamped, scaled by
32767 and cast (`as i16`, hence truncated toward zero); S16 passes through;
S32 is arithmetically shifted right 16 bits (= floor division by 2^16, in
i16 range for i32 input, so the `as i16` cast is the identity); any other
format yields an empty vector. -/
def convert_to_i16 (buffer : AudioBufferRef) (target_channels : Nat) : List Int :=
  match buffer with
  | .F32 chans frames =>
      (List.range frames).flatMap fun frame =>
        (List.range target_channels).map fun ch =>
          truncToInt (clampQ (-1) 1 (pick chans 0 ch frame) * 32767)
  | .S16 chans frames =>
      (List.range frames).flatMap fun frame =>
        (List.range target_channels).map fun ch => pick chans 0 ch frame
  | .S32 chans frames =>
      (List.range frames).flatMap fun frame =>
        (List.range target_channels).map fun ch =>
          Int.fdiv (pick chans 0 ch frame) 65536
  | .Other => []

/-- The one-sample F32 buffer used by the C7 counterexample; 2/3 is a stand-in
for any sample whose scaled value has fractional part above one half. -/
def cexBuffer : AudioBufferRef := .F32 [[(2 : ℚ) / 3]] 1

end Dec

namespace Demux

/-- One SPS or PPS NAL in AVCC framing: 4-byte big-endian length, then the
NAL body (src/foundry-player/src/demuxer.rs:236-245). -/
def nalWithLen (nal : List Nat) : List Nat := beBytes 4 nal.length ++ nal

/-- `sps_pps_avcc` as built by `extract_avcc`
(src/foundry-player/src/demuxer.rs:235-245): all SPS entries, then all PPS
entries, each length-prefixed. -/
def sps_pps_avcc (sps pps : List (List Nat)) : List Nat :=
  sps.flatMap nalWithLen ++ pps.flatMap nalWithLen

/-- The payload constructed by `FrameIterator::next`
(src/foundry-player/src/demuxer.rs:184-190): keyframes are prepended with
the stored SPS/PPS bytes unless that prefix is empty; other samples pass
through unchanged. -/
def framePayload (spsPps : List Nat) (sampleBytes : List Nat) (isKey : Bool) :
    List Nat :=
  if isKey ∧ spsPps ≠ [] then spsPps ++ sampleBytes else sampleBytes

end Demux

namespace Session

/-- `VideoCodec` (src/src/video_pipeline.rs:11). -/
inductive VideoCodec where
  | Avc
  | Hevc
deriving DecidableEq

/-- The semantic content of a `video-config` text message; the JSON shell
and codec string are not load-bearing for any claim and are abstracted. -/
structure ConfigPayload where
  width : Nat
  height : Nat
  description : List Nat
deriving DecidableEq

/-- The outbound messages a session can push into its bounded channel. -/
inductive ServerMsg where
  | modeAckCodec (codec : VideoCodec)
  | modeAckUnavailable
  | videoConfig (cfg : ConfigPayload)
  | videoBinary (data : List Nat)
  | audioBinary (data : List Nat)
  | pong (payload : List Nat)
  | closeEcho
deriving DecidableEq

def isModeAck : ServerMsg → Bool
  | .modeAckCodec _ => true
  | .modeAckUnavailable => true
  | _ => false

def isVideoConfig : ServerMsg → Bool
  | .videoConfig _ => true
  | _ => false

def isVideoBinary : ServerMsg → Bool
  | .videoBinary _ => true
  | _ => false

def isAudioBinary : ServerMsg → Bool
  | .audioBinary _ => true
  | _ => false

/-- Every video binary in the transcript is strictly preceded by some
`video-config` text. -/
def ConfigBeforeBinary (t : List ServerMsg) : Prop :=
  ∀ i (hi : i < t.length), isVideoBinary (t.get ⟨i, hi⟩) = true →
    ∃ j, j < i ∧ ∃ hj : j < t.length, isVideoConfig (t.get ⟨j, hj⟩) = true

/-- Every mode-ack text precedes every `video-config` text (the ordering
C1 claims). -/
def AckBeforeConfig (t : List ServerMsg) : Prop :=
  ∀ i j (hi : i < t.length) (hj : j < t.length),
    isModeAck (t.get ⟨i, hi⟩) = true → isVideoConfig (t.get ⟨j, hj⟩) = true →
      i < j

/-- `VideoConfig` as `pipeline.config()` returns it
(src/src/video_pipeline.rs:17). -/
structure PipeConfig where
  codec : VideoCodec
  width : Nat
  height : Nat
  description_b64 : List Nat
deriving DecidableEq

/-- `AudioChunk` from the direct capture path (src/src/audio_capture.rs). -/
structure AudioChunk where
  sample_rate : Nat
  channels : Nat
  samples : List Int
deriving DecidableEq

/-- `build_direct_audio_chunk` (src/src/session.rs:167-179): same framing as
`build_audio_chunk` with `start_ms = 0.0` (bit pattern 0). -/
def build_direct_audio_chunk (c : AudioChunk) : List Nat :=
  Wire.build_audio_chunk ⟨0, c.sample_rate, c.channels, c.samples⟩

/-- One firing of a `tokio::select!` arm of `run_video`
(src/src/session.rs:261-373).  A frame event carries the oracle outcome of
`pipeline.encode` (the encoded AVCC bytes, or none) and the value
`pipeline.config()` would return at that moment; proving the ordering claims
for every oracle behaviour covers the real encoder. -/
inductive Event where
  | wsText (forceKeyframe : Bool)
  | wsBinary (data : List Nat)
  | wsPing (payload : List Nat)
  | wsClose
  | wsError
  | wsEnd
  | directAudio (chunk : AudioChunk)
  | mixerAudio (chunk : Wire.MixedChunk)
  | frameEvt (enc : Option (List Nat)) (cfg : PipeConfig)
  | frameEnd
deriving DecidableEq

/-- The loop-local mutable state of `run_video`: `pending_config_sent`,
`force_idr_next`, and whether the loop has broken. -/
structure SessState where
  configSent : Bool
  forceIdr : Bool
  stopped : Bool
deriving DecidableEq

/-- The guard on sending the config (src/src/session.rs:341). -/
def goodCfg (cfg : PipeConfig) : Bool :=
  decide (cfg.description_b64 ≠ []) && decide (0 < cfg.width)
    && decide (0 < cfg.height)

/-- One step of `run_video`'s select loop: the successor state and the
messages pushed into the outbound channel by that arm, in order. -/
def liveStep (s : SessState) (e : Event) : SessState × List ServerMsg :=
  if s.stopped then (s, [])
  else match e with
  | .wsText fk => ({ s with forceIdr := s.forceIdr || fk }, [])
  | .wsBinary _ => (s, [])
  | .wsPing p => (s, [.pong p])
  | .wsClose => ({ s with stopped := true }, [.closeEcho])
  | .wsError => ({ s with stopped := true }, [])
  | .wsEnd => ({ s with stopped := true }, [])
  | .directAudio ch => (s, [.audioBinary (build_direct_audio_chunk ch)])
  | .mixerAudio ch => (s, [.audioBinary (Wire.build_audio_chunk ch)])
  | .frameEnd => ({ s with stopped := true }, [])
  | .frameEvt enc cfg =>
      match enc with
      | none => ({ s with forceIdr := false }, [])
      | some chunkData =>
          if s.configSent then
            ({ s with forceIdr := false }, [.videoBinary chunkData])
          else if goodCfg cfg = true then
            ({ s with configSent := true, forceIdr := false },
              [.videoConfig ⟨cfg.width, cfg.height, cfg.description_b64⟩,
               .videoBinary chunkData])
          else ({ s with forceIdr := false }, [])

/-- The messages `run_video` pushes over a sequence of events. -/
def runVideoMsgs : SessState → List Event → List ServerMsg
  | _, [] => []
  | s, e :: rest =>
      let r := liveStep s e
      r.2 ++ runVideoMsgs r.1 rest

/-- `EncoderImpl::new` (src/src/video_pipeline.rs:60-68): HEVC is rejected
outright; AVC succeeds (possible failures of the placeholder openh264
constructor are abstracted as success). -/
def pipelineOk : VideoCodec → Bool
  | .Hevc => false
  | .Avc => true

/-- `run_video` starts with `pending_config_sent = false`,
`force_idr_next = false` (src/src/session.rs:249-250). -/
def initSess : SessState := ⟨false, false, false⟩

/-- The live session `start` (src/src/session.rs:181-201): `negotiate_mode`
acknowledges the (possibly defaulted) codec choice, then either `run_video`
runs, or — when `VideoPipeline::new` fails, in particular for HEVC — a
second mode-ack with reason video-unavailable is sent and nothing else.
`modeReq` is the parsed codec of a timely valid mode request, or `none`. -/
def sessionTranscript (modeReq : Option VideoCodec) (events : List Event) :
    List ServerMsg :=
  let codec := modeReq.getD .Avc
  if pipelineOk codec = true then
    .modeAckCodec codec :: runVideoMsgs initSess events
  else [.modeAckCodec codec, .modeAckUnavailable]

/-- A frame of the offline demuxer as the paced player consumes it:
presentation timestamp (exact rational), sync flag, payload bytes. -/
structure DemuxFrame where
  ts : ℚ
  keyframe : Bool
  data : List Nat
deriving DecidableEq

/-- `DecodedAudio` (src/foundry-player/src/audio_decoder.rs:16). -/
structure DecodedPcm where
  samples : List Int
  sample_rate : Nat
  channels : Nat
deriving DecidableEq

/-- `as usize` on a nonnegative `f64`: truncation toward zero; negative
values saturate to 0 (`Int.toNat` of the floor does both). -/
def ratFloorToUsize (q : ℚ) : Nat := (⌊q⌋).toNat

/-- The audio chunking loop of `run_playback`
(src/foundry-player/src/main.rs:301-313).  `pos` advances to
`min(pos + chunkSz, endS, len)` per iteration; with `chunkSz = 0` the source
loops forever without sending, which the fuel bound renders as an empty
tail.  Called with fuel `endS + 1`, enough for every `chunkSz ≥ 1`. -/
def audioChunkMsgs (samples : List Int) (rate chunkSz endS : Nat) :
    Nat → Nat → List ServerMsg
  | 0, _ => []
  | fuel + 1, pos =>
      if pos < endS ∧ pos < samples.length then
        if (samples.drop pos).take (min (min (pos + chunkSz) endS) samples.length - pos) ≠ [] then
          .audioBinary (Wire.build_audio_chunk
            ⟨0, rate, 2,
              (samples.drop pos).take (min (min (pos + chunkSz) endS) samples.length - pos)⟩)
            :: audioChunkMsgs samples rate chunkSz endS fuel
                (min (min (pos + chunkSz) endS) samples.length)
        else audioChunkMsgs samples rate chunkSz endS fuel
          (min (min (pos + chunkSz) endS) samples.length)
      else []

/-- The audio window `[lastT, ts]` sent before a video frame
(src/foundry-player/src/main.rs:295-315): sample positions are
`(time · rate · channels) as usize`, the chunk size is
`(rate · channels · 0.04) as usize`, and each chunk is an AUD0 binary with
`start_ms = 0` and a hard-coded channel count of 2
(src/foundry-player/src/main.rs:336-350). -/
def audioWindow (pcm : DecodedPcm) (lastT ts : ℚ) : List ServerMsg :=
  audioChunkMsgs pcm.samples pcm.sample_rate
    (ratFloorToUsize ((pcm.sample_rate : ℚ) * (pcm.channels : ℚ) * (1 / 25)))
    (ratFloorToUsize (ts * (pcm.sample_rate : ℚ) * (pcm.channels : ℚ)))
    (ratFloorToUsize (ts * (pcm.sample_rate : ℚ) * (pcm.channels : ℚ)) + 1)
    (ratFloorToUsize (lastT * (pcm.sample_rate : ℚ) * (pcm.channels : ℚ)))

/-- The frame walk of one playback pass
(src/foundry-player/src/main.rs:268-322): skip frames before the start
offset, then skip until the first keyframe; for each surviving frame send
the audio window (when audio was decoded; only then does `last_audio_time`
advance) and then the frame payload.  Sleeps only affect timing, not the
message sequence. -/
def passGo (pcmOpt : Option DecodedPcm) (startT : ℚ) :
    List DemuxFrame → ℚ → Bool → List ServerMsg
  | [], _, _ => []
  | f :: rest, lastA, foundKey =>
      if f.ts < startT then passGo pcmOpt startT rest lastA foundKey
      else if foundKey = false ∧ f.keyframe = false then
        passGo pcmOpt startT rest lastA foundKey
      else
        match pcmOpt with
        | some pcm =>
            audioWindow pcm lastA f.ts
              ++ (.videoBinary f.data :: passGo pcmOpt startT rest f.ts true)
        | none => .videoBinary f.data :: passGo pcmOpt startT rest lastA true

/-- One pass of the playback loop body: `last_audio_time` starts at the start
offset and the keyframe gate starts closed
(src/foundry-player/src/main.rs:261-263). -/
def onePassMsgs (pcmOpt : Option DecodedPcm) (startT : ℚ)
    (frames : List DemuxFrame) : List ServerMsg :=
  passGo pcmOpt startT frames startT false

/-- `run_playback` (src/foundry-player/src/main.rs:227-333): the
`video-config` text is sent FIRST, then the mode-ack, then the passes of the
playback loop (one pass when `--loop-playback` is off; `passes` unrolls the
infinite loop to any finite prefix of whole passes). -/
def playbackTranscript (cfg : ConfigPayload) (pcmOpt : Option DecodedPcm)
    (startT : ℚ) (frames : List DemuxFrame) (passes : Nat) : List ServerMsg :=
  .videoConfig cfg :: .modeAckCodec .Avc
    :: (List.range passes).flatMap (fun _ => onePassMsgs pcmOpt startT frames)

end Session

/-! ## Helper lemmas -/

theorem leBytes_length (n v : Nat) : (leBytes n v).length = n := by
  induction n generalizing v with
  | zero => rfl
  | succ k ih => simp [leBytes, ih]

theorem leNum_leBytes (n v : Nat) : leNum (leBytes n v) = v % 256 ^ n := by
  induction n generalizing v with
  | zero => simp [leBytes, leNum, Nat.mod_one]
  | succ k ih =>
      simp only [leBytes, leNum, ih, pow_succ]
      have h1 : v % 256 % 256 = v % 256 := Nat.mod_mod_of_dvd v dvd_rfl
      rw [h1, Nat.mul_comm (256 ^ k) 256, Nat.mod_mul]

namespace Wire

theorem encodeSample_length (s : Int) : (encodeSample s).length = 2 :=
  leBytes_length 2 _

theorem payload_length (samples : List Int) :
    (samples.flatMap encodeSample).length = 2 * samples.length := by
  induction samples with
  | nil => simp
  | cons s rest ih =>
      simp [List.flatMap_cons, encodeSample_length, ih]
      omega

theorem decode_encodeSample (s : Int) (rest : List Nat)
    (h1 : -32768 ≤ s) (h2 : s < 32768) :
    decodeSamples (encodeSample s ++ rest) = s :: decodeSamples rest := by
  have hm : (s % 65536).toNat < 65536 := by omega
  have hb : encodeSample s =
      [(s % 65536).toNat % 256, (s % 65536).toNat / 256 % 256] := by
    simp [encodeSample, leBytes]
  rw [hb]
  simp only [List.cons_append, List.nil_append, decodeSamples]
  congr 1
  have hlt : (s % 65536).toNat / 256 < 256 := by omega
  unfold i16OfLe
  have h256 : (s % 65536).toNat % 256 % 256 = (s % 65536).toNat % 256 :=
    Nat.mod_mod_of_dvd _ dvd_rfl
  have hd : (s % 65536).toNat / 256 % 256 % 256 = (s % 65536).toNat / 256 := by
    omega
  simp only [h256, hd]
  have hrec : (s % 65536).toNat % 256 + 256 * ((s % 65536).toNat / 256)
      = (s % 65536).toNat := by omega
  rw [hrec]
  rcases le_or_lt 0 s with hpos | hneg
  · have he : s % 65536 = s := by omega
    have hsm : (s % 65536).toNat < 32768 := by omega
    rw [if_pos hsm]
    omega
  · have he : s % 65536 = s + 65536 := by omega
    have hsm : ¬ (s % 65536).toNat < 32768 := by omega
    rw [if_neg hsm]
    omega

theorem decode_encode (samples : List Int)
    (h : ∀ s ∈ samples, -32768 ≤ s ∧ s < 32768) :
    decodeSamples (samples.flatMap encodeSample) = samples := by
  induction samples with
  | nil => simp [decodeSamples]
  | cons s rest ih =>
      have hs := h s (List.mem_cons_self s rest)
      rw [List.flatMap_cons, decode_encodeSample s _ hs.1 hs.2,
        ih (fun x hx => h x (List.mem_cons_of_mem s hx))]

/-- Structural layout of a built chunk: the five header pieces then payload. -/
theorem build_eq (c : MixedChunk) :
    build_audio_chunk c =
      ([0x41, 0x55, 0x44, 0x30] ++ leBytes 8 c.start_ms ++ leBytes 4 c.sample_rate
        ++ leBytes 4 c.channels ++ leBytes 4 c.samples.length)
      ++ c.samples.flatMap encodeSample := by
  simp [build_audio_chunk, List.append_assoc]

theorem build_length (c : MixedChunk) :
    (build_audio_chunk c).length = 24 + 2 * c.samples.length := by
  rw [build_eq, List.length_append, payload_length]
  simp [leBytes_length]

theorem build_drop_take (c : MixedChunk) :
    ((build_audio_chunk c).drop 4).take 8 = leBytes 8 c.start_ms ∧
    ((build_audio_chunk c).drop 12).take 4 = leBytes 4 c.sample_rate ∧
    ((build_audio_chunk c).drop 16).take 4 = leBytes 4 c.channels ∧
    ((build_audio_chunk c).drop 20).take 4 = leBytes 4 c.samples.length ∧
    (build_audio_chunk c).drop 24 = c.samples.flatMap encodeSample ∧
    (build_audio_chunk c).take 4 = [0x41, 0x55, 0x44, 0x30] := by
  refine ⟨?_, ?_, ?_, ?_, ?_, ?_⟩
  · rw [show build_audio_chunk c = [0x41, 0x55, 0x44, 0x30] ++
        (leBytes 8 c.start_ms ++ (leBytes 4 c.sample_rate ++ (leBytes 4 c.channels
          ++ (leBytes 4 c.samples.length ++ c.samples.flatMap encodeSample)))) by
        simp [build_audio_chunk]]
    rw [List.drop_left' (by simp), List.take_left' (by simp [leBytes_length])]
  · rw [show build_audio_chunk c = ([0x41, 0x55, 0x44, 0x30] ++ leBytes 8 c.start_ms)
        ++ (leBytes 4 c.sample_rate ++ (leBytes 4 c.channels
          ++ (leBytes 4 c.samples.length ++ c.samples.flatMap encodeSample))) by
        simp [build_audio_chunk]]
    rw [List.drop_left' (by simp [leBytes_length]),
      List.take_left' (by simp [leBytes_length])]
  · rw [show build_audio_chunk c = ([0x41, 0x55, 0x44, 0x30] ++ leBytes 8 c.start_ms
        ++ leBytes 4 c.sample_rate) ++ (leBytes 4 c.channels
          ++ (leBytes 4 c.samples.length ++ c.samples.flatMap encodeSample)) by
        simp [build_audio_chunk]]
    rw [List.drop_left' (by simp [leBytes_length]),
      List.take_left' (by simp [leBytes_length])]
  · rw [show build_audio_chunk c = ([0x41, 0x55, 0x44, 0x30] ++ leBytes 8 c.start_ms
        ++ leBytes 4 c.sample_rate ++ leBytes 4 c.channels)
        ++ (leBytes 4 c.samples.length ++ c.samples.flatMap encodeSample) by
        simp [build_audio_chunk]]
    rw [List.drop_left' (by simp [leBytes_length]),
      List.take_left' (by simp [leBytes_length])]
  · rw [build_eq c, List.drop_left' (by simp [leBytes_length])]
  · rw [show build_audio_chunk c = [0x41, 0x55, 0x44, 0x30] ++
        (leBytes 8 c.start_ms ++ (leBytes 4 c.sample_rate ++ (leBytes 4 c.channels
          ++ (leBytes 4 c.samples.length ++ c.samples.flatMap encodeSample)))) by
        simp [build_audio_chunk]]
    rw [List.take_left' (by simp)]

/-- General round trip, with the `as u32` truncation of the sample count left
explicit. -/
theorem parse_build (c : MixedChunk) :
    parse_audio_chunk (build_audio_chunk c) =
      some { start_ms := c.start_ms % 2 ^ 64
             sample_rate := c.sample_rate % 2 ^ 32
             channels := c.channels % 2 ^ 32
             samples := decodeSamples ((c.samples.flatMap encodeSample).take
               (2 * (c.samples.length % 2 ^ 32))) } := by
  obtain ⟨h8, h12, h16, h20, h24, htk⟩ := build_drop_take c
  have hlen := build_length c
  have hmagic : is_audio_magic (build_audio_chunk c) = true := by
    simp only [is_audio_magic, Bool.and_eq_true, decide_eq_true_eq]
    exact ⟨by rw [hlen]; omega, htk⟩
  have hcount : leNum (((build_audio_chunk c).drop 20).take 4)
      = c.samples.length % 2 ^ 32 := by
    rw [h20, leNum_leBytes]
    norm_num
  unfold parse_audio_chunk
  rw [if_pos ⟨hmagic, by omega⟩]
  have hneed : 24 + 2 * leNum (((build_audio_chunk c).drop 20).take 4)
      ≤ (build_audio_chunk c).length := by
    rw [hcount, hlen]
    have hmle : c.samples.length % 2 ^ 32 ≤ c.samples.length := Nat.mod_le _ _
    omega
  rw [if_pos hneed]
  have hst : leNum (((build_audio_chunk c).drop 4).take 8) = c.start_ms % 2 ^ 64 := by
    rw [h8, leNum_leBytes]; norm_num
  have hsr : leNum (((build_audio_chunk c).drop 12).take 4)
      = c.sample_rate % 2 ^ 32 := by
    rw [h12, leNum_leBytes]; norm_num
  have hch : leNum (((build_audio_chunk c).drop 16).take 4)
      = c.channels % 2 ^ 32 := by
    rw [h16, leNum_leBytes]; norm_num
  simp only [Option.some.injEq, MixerInput.mk.injEq]
  exact ⟨hst, hsr, hch, by rw [hcount, h24]⟩

theorem decodeSamples_length (l : List Nat) :
    (decodeSamples l).length = l.length / 2 := by
  induction l using decodeSamples.induct with
  | case1 b0 b1 rest ih => simp [decodeSamples, ih]; omega
  | case2 l h => cases l with
    | nil => simp [decodeSamples]
    | cons a t => cases t with
      | nil => simp [decodeSamples]
      | cons b u => exact absurd rfl (h a b u)

end Wire

namespace DS

theorem ceilSqrtAux_sq_ge (n : Nat) :
    ∀ fuel s, n ≤ (s + fuel) * (s + fuel) →
      n ≤ ceilSqrtAux n fuel s * ceilSqrtAux n fuel s := by
  intro fuel
  induction fuel with
  | zero => intro s h; simpa [ceilSqrtAux] using h
  | succ k ih =>
      intro s h
      unfold ceilSqrtAux
      split_ifs with hle
      · exact hle
      · refine ih (s + 1) ?_
        have he : s + 1 + k = s + (k + 1) := by omega
        rw [he]
        exact h

theorem ceilSqrt_sq_ge (n : Nat) : n ≤ ceilSqrt n * ceilSqrt n := by
  unfold ceilSqrt
  apply ceilSqrtAux_sq_ge
  have h : n ≤ (n + 1) * (n + 1) := by nlinarith
  simpa using h

theorem scaleLoop_le (w h : Nat) :
    ∀ fuel s, s ≤ scaleLoop w h fuel s := by
  intro fuel
  induction fuel with
  | zero => intro s; simp [scaleLoop]
  | succ k ih =>
      intro s
      unfold scaleLoop
      split_ifs with hc
      · exact le_trans (Nat.le_succ s) (ih (s + 1))
      · exact le_refl s

theorem scaleLoop_post (w h : Nat) :
    ∀ fuel s, 16 - s ≤ fuel →
      MAX_PIXELS < (w / scaleLoop w h fuel s) * (h / scaleLoop w h fuel s) →
      16 ≤ scaleLoop w h fuel s := by
  intro fuel
  induction fuel with
  | zero =>
      intro s hf _
      simp only [scaleLoop]
      omega
  | succ k ih =>
      intro s hf hbad
      unfold scaleLoop at hbad ⊢
      split_ifs at hbad ⊢ with hc
      · exact ih (s + 1) (by omega) hbad
      · rw [Classical.not_and_iff_or_not_not] at hc
        rcases hc with hc | hc
        · omega
        · exact absurd hbad hc

theorem scaleLoop_first (w h : Nat) :
    ∀ fuel s t, s ≤ t → t < scaleLoop w h fuel s →
      MAX_PIXELS < (w / t) * (h / t) := by
  intro fuel
  induction fuel with
  | zero =>
      intro s t hst hlt
      simp only [scaleLoop] at hlt
      omega
  | succ k ih =>
      intro s t hst hlt
      unfold scaleLoop at hlt
      split_ifs at hlt with hc
      · rcases Nat.eq_or_lt_of_le hst with heq | hgt
        · rw [heq] at hc
          exact hc.2
        · exact ih (s + 1) t hgt hlt
      · omega

theorem scaleLoop_cap (w h : Nat) :
    ∀ fuel s, s ≤ 16 → scaleLoop w h fuel s ≤ 16 := by
  intro fuel
  induction fuel with
  | zero => intro s hs; simpa [scaleLoop] using hs
  | succ k ih =>
      intro s hs
      unfold scaleLoop
      split_ifs with hc
      · exact ih (s + 1) (by omega)
      · exact hs

theorem scaleLoop_stop (w h : Nat) :
    ∀ fuel s, 16 ≤ s → scaleLoop w h fuel s = s := by
  intro fuel
  cases fuel with
  | zero => intro s _; rfl
  | succ k =>
      intro s hs
      unfold scaleLoop
      rw [if_neg]
      intro hcon
      omega

theorem ceil_div_mul_ge (pixels M : Nat) (hM : 0 < M) :
    pixels ≤ M * ((pixels + M - 1) / M) := by
  have h2 : pixels + M - 1 < M * ((pixels + M - 1) / M + 1) :=
    Nat.lt_mul_div_succ _ hM
  have h3 : M * ((pixels + M - 1) / M + 1) = M * ((pixels + M - 1) / M) + M := by
    ring
  omega

theorem div_mul_div_le (w h s M : Nat) (hs : 0 < s) (hM : w * h ≤ s * s * M) :
    (w / s) * (h / s) ≤ M := by
  have h1 : (w / s) * (h / s) * (s * s) ≤ w * h := by
    calc (w / s) * (h / s) * (s * s) = ((w / s) * s) * ((h / s) * s) := by ring
    _ ≤ w * h := Nat.mul_le_mul (Nat.div_mul_le_self w s) (Nat.div_mul_le_self h s)
  have h2 : (s * s) * ((w / s) * (h / s)) ≤ (s * s) * M := by
    calc (s * s) * ((w / s) * (h / s)) = (w / s) * (h / s) * (s * s) := by ring
    _ ≤ w * h := h1
    _ ≤ s * s * M := hM
  exact Nat.le_of_mul_le_mul_left h2 (Nat.mul_pos hs hs)

theorem cap_binds_start (w h : Nat)
    (hbad : MAX_PIXELS < (w / 16) * (h / 16)) :
    17 ≤ startScale (w * h) := by
  have hw16 : 16 * (w / 16) ≤ w := by
    have := Nat.div_mul_le_self w 16
    omega
  have hh16 : 16 * (h / 16) ≤ h := by
    have := Nat.div_mul_le_self h 16
    omega
  have hwh : 256 * ((w / 16) * (h / 16)) ≤ w * h := by
    calc 256 * ((w / 16) * (h / 16)) = (16 * (w / 16)) * (16 * (h / 16)) := by ring
    _ ≤ w * h := Nat.mul_le_mul hw16 hh16
  have hbig : 256 * (MAX_PIXELS + 1) ≤ w * h := by
    have : 256 * (MAX_PIXELS + 1) ≤ 256 * ((w / 16) * (h / 16)) :=
      Nat.mul_le_mul_left 256 (by omega)
    omega
  have hr : 257 ≤ (w * h + MAX_PIXELS - 1) / MAX_PIXELS := by
    rw [Nat.le_div_iff_mul_le (by norm_num [MAX_PIXELS])]
    have hM : (MAX_PIXELS : Nat) = 2073600 := by norm_num [MAX_PIXELS]
    omega
  by_contra hlt
  push_neg at hlt
  have hsq : (w * h + MAX_PIXELS - 1) / MAX_PIXELS
      ≤ ceilSqrt ((w * h + MAX_PIXELS - 1) / MAX_PIXELS)
        * ceilSqrt ((w * h + MAX_PIXELS - 1) / MAX_PIXELS) :=
    ceilSqrt_sq_ge _
  have hc16 : ceilSqrt ((w * h + MAX_PIXELS - 1) / MAX_PIXELS) ≤ 16 := by
    unfold startScale at hlt
    omega
  have : (w * h + MAX_PIXELS - 1) / MAX_PIXELS ≤ 256 := by
    have := Nat.mul_le_mul hc16 hc16
    omega
  omega

theorem startScale_ge_two (p : Nat) : 2 ≤ startScale p :=
  le_max_left 2 _

/-- Full characterization of the selected scale when the frame is over
budget: it is the least scale at or above the square-root starting point
whose floor-divided dimensions meet the pixel budget. -/
theorem chosenScale_spec (w h : Nat) (hpix : MAX_PIXELS < w * h) :
    startScale (w * h) ≤ chosenScale w h ∧
    (w / chosenScale w h) * (h / chosenScale w h) ≤ MAX_PIXELS ∧
    ∀ t, startScale (w * h) ≤ t → (w / t) * (h / t) ≤ MAX_PIXELS →
      chosenScale w h ≤ t := by
  have hcs : chosenScale w h = scaleLoop w h 16 (startScale (w * h)) := by
    unfold chosenScale
    rw [if_pos hpix]
  have hle : startScale (w * h) ≤ chosenScale w h := by
    rw [hcs]; exact scaleLoop_le w h 16 _
  have hstart2 := startScale_ge_two (w * h)
  refine ⟨hle, ?_, ?_⟩
  · -- budget holds at the selected scale
    rcases le_or_lt (startScale (w * h)) 16 with hs16 | hs17
    · by_contra hbad
      push_neg at hbad
      have h16le : 16 ≤ chosenScale w h := by
        rw [hcs] at hbad ⊢
        exact scaleLoop_post w h 16 _ (by omega) hbad
      have hcap : chosenScale w h ≤ 16 := by
        rw [hcs]
        exact scaleLoop_cap w h 16 _ hs16
      have h16 : chosenScale w h = 16 := le_antisymm hcap h16le
      rw [h16] at hbad
      have := cap_binds_start w h hbad
      omega
    · have hstop : chosenScale w h = startScale (w * h) := by
        rw [hcs]
        exact scaleLoop_stop w h 16 _ (by omega)
      rw [hstop]
      -- pixels ≤ ratio·MAX ≤ start²·MAX, so the floor-divided budget holds
      have hM : (0 : Nat) < MAX_PIXELS := by norm_num [MAX_PIXELS]
      have h1 : w * h ≤ MAX_PIXELS * ((w * h + MAX_PIXELS - 1) / MAX_PIXELS) :=
        ceil_div_mul_ge (w * h) MAX_PIXELS hM
      have h2 : (w * h + MAX_PIXELS - 1) / MAX_PIXELS
          ≤ startScale (w * h) * startScale (w * h) := by
        have hcc : ceilSqrt ((w * h + MAX_PIXELS - 1) / MAX_PIXELS)
            ≤ startScale (w * h) := le_max_right 2 _
        calc (w * h + MAX_PIXELS - 1) / MAX_PIXELS
            ≤ ceilSqrt ((w * h + MAX_PIXELS - 1) / MAX_PIXELS)
              * ceilSqrt ((w * h + MAX_PIXELS - 1) / MAX_PIXELS) :=
            ceilSqrt_sq_ge _
        _ ≤ startScale (w * h) * startScale (w * h) := Nat.mul_le_mul hcc hcc
      apply div_mul_div_le w h _ MAX_PIXELS (by omega)
      calc w * h ≤ MAX_PIXELS * ((w * h + MAX_PIXELS - 1) / MAX_PIXELS) := h1
      _ ≤ MAX_PIXELS * (startScale (w * h) * startScale (w * h)) :=
          Nat.mul_le_mul_left _ h2
      _ = startScale (w * h) * startScale (w * h) * MAX_PIXELS := by ring
  · -- minimality above the starting point
    intro t hst hbud
    by_contra hgt
    push_neg at hgt
    have := scaleLoop_first w h 16 (startScale (w * h)) t hst (by rw [hcs] at hgt; exact hgt)
    omega

end DS

namespace Mixer

theorem satAccum_length (acc s : List Int) :
    (satAccum acc s).length = max acc.length s.length := by
  induction acc, s using satAccum.induct with
  | case1 acc => simp [satAccum]
  | case2 s0 srest ih =>
      simp only [satAccum, List.length_cons, ih]
      simp
  | case3 a arest s0 srest ih =>
      simp only [satAccum, List.length_cons, ih]
      omega

theorem satAccum_getD (acc s : List Int) :
    ∀ idx, idx < s.length →
      (satAccum acc s).getD idx 0 = satAddI32 (acc.getD idx 0) (s.getD idx 0) := by
  induction acc, s using satAccum.induct with
  | case1 acc =>
      intro idx h
      simp at h
  | case2 s0 srest ih =>
      intro idx h
      cases idx with
      | zero => simp [satAccum]
      | succ n =>
          simp only [satAccum, List.getD_cons_succ]
          exact ih n (by simpa using h)
  | case3 a arest s0 srest ih =>
      intro idx h
      cases idx with
      | zero => simp [satAccum]
      | succ n =>
          simp only [satAccum, List.getD_cons_succ]
          exact ih n (by simpa using h)

theorem mixStep_nonmono (now : Nat) (st : MixerState) (input : MixerInput)
    (h : input.channels ≠ 1) : mixStep now st input = (st, none) := by
  unfold mixStep
  rw [if_pos h]

theorem mixStep_skip (now : Nat) (st : MixerState) (input : MixerInput)
    (hmono : input.channels = 1)
    (hmm : (bucket0 now st input).sample_rate ≠ input.sample_rate ∨
      (bucket0 now st input).channels ≠ input.channels) :
    mixStep now st input = (st, none) := by
  unfold mixStep
  rw [if_neg (by simp [hmono]), if_pos hmm]

theorem mixStep_mismatch (now : Nat) (st : MixerState) (input : MixerInput)
    (b : MixBucket) (hmono : input.channels = 1)
    (hb : st.buckets (msKey input.start_ms) = some b)
    (hmm : b.sample_rate ≠ input.sample_rate) :
    mixStep now st input = (st, none) := by
  have hb0 : bucket0 now st input = b := by
    unfold bucket0
    rw [hb]
  exact mixStep_skip now st input hmono (Or.inl (by rw [hb0]; exact hmm))

theorem mixStep_contrib (now : Nat) (st : MixerState) (input : MixerInput)
    (hmono : input.channels = 1)
    (hr : (bucket0 now st input).sample_rate = input.sample_rate)
    (hc : (bucket0 now st input).channels = input.channels) :
    mixStep now st input =
      (pruneIfDue now st.last_prune
        (fun k => if k = msKey input.start_ms then
          some (contribBucket now (bucket0 now st input) input)
          else st.buckets k),
       some (emittedChunk (contribBucket now (bucket0 now st input) input))) := by
  unfold mixStep
  rw [if_neg (by simp [hmono]), if_neg (by push_neg; exact ⟨hr, hc⟩)]

theorem pruneIfDue_lookup_sub (now lp : Nat) (bs : Nat → Option MixBucket)
    (k : Nat) (b' : MixBucket) (h : (pruneIfDue now lp bs).buckets k = some b') :
    bs k = some b' := by
  unfold pruneIfDue at h
  split_ifs at h with hdue
  · simp only at h
    rcases hbs : bs k with _ | b2
    · rw [hbs] at h
      exact absurd h (by simp)
    · rw [hbs] at h
      dsimp only at h
      rcases le_or_lt (now - b2.last_update) MAX_BUCKET_AGE_MS with hage | hage
      · rw [if_pos hage] at h
        exact h
      · rw [if_neg (by omega)] at h
        exact absurd h (by simp)
  · exact h

theorem pruneIfDue_lookup_fresh (now lp : Nat) (bs : Nat → Option MixBucket)
    (k : Nat) (b : MixBucket) (hb : bs k = some b)
    (hfresh : b.last_update = now) :
    (pruneIfDue now lp bs).buckets k = some b := by
  unfold pruneIfDue
  split_ifs with hdue
  · simp only [hb]
    rw [if_pos (by rw [hfresh]; omega)]
  · exact hb

theorem pruneIfDue_young (now lp : Nat) (bs : Nat → Option MixBucket)
    (hdue : CHUNK_MS < now - lp) :
    ∀ k b', (pruneIfDue now lp bs).buckets k = some b' →
      now - b'.last_update ≤ MAX_BUCKET_AGE_MS := by
  intro k b' h
  unfold pruneIfDue at h
  rw [if_pos hdue] at h
  simp only at h
  rcases hbs : bs k with _ | b2
  · rw [hbs] at h
    exact absurd h (by simp)
  · rw [hbs] at h
    dsimp only at h
    rcases le_or_lt (now - b2.last_update) MAX_BUCKET_AGE_MS with hage | hage
    · rw [if_pos hage] at h
      rw [← Option.some.inj h]
      exact hage
    · rw [if_neg (by omega)] at h
      exact absurd h (by simp)

theorem pruneIfDue_stamp (now lp : Nat) (bs : Nat → Option MixBucket)
    (hdue : CHUNK_MS < now - lp) :
    (pruneIfDue now lp bs).last_prune = now := by
  unfold pruneIfDue
  rw [if_pos hdue]

/-- Buckets reachable from the empty state are mono and start on a
`CHUNK_MS` boundary. -/
def BucketsWF (st : MixerState) : Prop :=
  ∀ k b, st.buckets k = some b →
    b.channels = 1 ∧ b.start_ms = (k : ℚ) * (CHUNK_MS : ℚ)

theorem bucketsWF_step (now : Nat) (st : MixerState) (input : MixerInput)
    (hwf : BucketsWF st) :
    BucketsWF (mixStep now st input).1 ∧
    (∀ c, (mixStep now st input).2 = some c →
      c.channels = 1 ∧ ∃ k : Nat, c.start_ms = (k : ℚ) * (CHUNK_MS : ℚ)) := by
  by_cases hch : input.channels = 1
  · by_cases hmm : (bucket0 now st input).sample_rate = input.sample_rate ∧
        (bucket0 now st input).channels = input.channels
    · rw [mixStep_contrib now st input hch hmm.1 hmm.2]
      have hb0 : (bucket0 now st input).channels = 1 ∧
          (bucket0 now st input).start_ms
            = (msKey input.start_ms : ℚ) * (CHUNK_MS : ℚ) := by
        unfold bucket0
        rcases hbs : st.buckets (msKey input.start_ms) with _ | b
        · simp only [hbs]
          exact ⟨hch, by trivial⟩
        · simp only [hbs]
          exact hwf _ b hbs
      constructor
      · intro k b' hb'
        have hsub := pruneIfDue_lookup_sub now st.last_prune _ k b' hb'
        by_cases hk : k = msKey input.start_ms
        · rw [if_pos hk] at hsub
          have hbe := Option.some.inj hsub
          rw [← hbe]
          refine ⟨hb0.1, ?_⟩
          rw [hk]
          exact hb0.2
        · rw [if_neg hk] at hsub
          exact hwf k b' hsub
      · intro c hc
        simp only at hc
        rw [← Option.some.inj hc]
        exact ⟨hb0.1, ⟨msKey input.start_ms, hb0.2⟩⟩
    · have hskip : (bucket0 now st input).sample_rate ≠ input.sample_rate ∨
          (bucket0 now st input).channels ≠ input.channels := by
        tauto
      rw [mixStep_skip now st input hch hskip]
      exact ⟨hwf, by intro c hc; exact absurd hc (by simp)⟩
  · rw [mixStep_nonmono now st input hch]
    exact ⟨hwf, by intro c hc; exact absurd hc (by simp)⟩

theorem runFrom_cons (st : MixerState) (t : Nat) (i : MixerInput)
    (rest : List (Nat × MixerInput)) :
    (runFrom st ((t, i) :: rest)).1 = (runFrom (mixStep t st i).1 rest).1 := rfl

theorem runFrom_append_fst (a b : List (Nat × MixerInput)) :
    ∀ st, (runFrom st (a ++ b)).1 = (runFrom (runFrom st a).1 b).1 := by
  induction a with
  | nil => intro st; rfl
  | cons e rest ih =>
      intro st
      rcases e with ⟨t, i⟩
      rw [List.cons_append, runFrom_cons, runFrom_cons]
      exact ih (mixStep t st i).1

theorem singleStep (v s : Int) :
    mixStep 0 (singleBucketState v) ⟨0, 48000, 1, [s]⟩ =
      (singleBucketState (satAddI32 v s),
       some ⟨(msKey 0 : ℚ) * (CHUNK_MS : ℚ), 48000, 1,
         [clampI16 (satAddI32 v s)]⟩) := by
  have hb0 : bucket0 0 (singleBucketState v) (⟨0, 48000, 1, [s]⟩ : MixerInput)
      = ⟨(msKey 0 : ℚ) * (CHUNK_MS : ℚ), 48000, 1, [v], 1, 0⟩ := by
    unfold bucket0
    simp [singleBucketState]
  rw [mixStep_contrib 0 _ _ rfl (by rw [hb0]) (by rw [hb0])]
  rw [hb0]
  have hnotdue : ¬ (CHUNK_MS < 0 - (singleBucketState v).last_prune) := by
    simp [singleBucketState, CHUNK_MS]
  unfold pruneIfDue
  rw [if_neg hnotdue]
  simp only [Prod.mk.injEq]
  constructor
  · unfold singleBucketState
    simp only [MixerState.mk.injEq]
    refine ⟨?_, by trivial⟩
    funext k
    by_cases hk : k = msKey 0 <;> simp [singleBucketState, hk, contribBucket, satAccum]
  · rfl

theorem firstStep (s : Int) :
    mixStep 0 initMixer ⟨0, 48000, 1, [s]⟩ =
      (singleBucketState (satAddI32 0 s),
       some ⟨(msKey 0 : ℚ) * (CHUNK_MS : ℚ), 48000, 1,
         [clampI16 (satAddI32 0 s)]⟩) := by
  have hb0 : bucket0 0 initMixer (⟨0, 48000, 1, [s]⟩ : MixerInput)
      = ⟨(msKey 0 : ℚ) * (CHUNK_MS : ℚ), 48000, 1, [], 0, 0⟩ := rfl
  rw [mixStep_contrib 0 _ _ rfl (by rw [hb0]) (by rw [hb0])]
  rw [hb0]
  have hnotdue : ¬ (CHUNK_MS < 0 - initMixer.last_prune) := by
    simp [initMixer, CHUNK_MS]
  unfold pruneIfDue
  rw [if_neg hnotdue]
  simp only [Prod.mk.injEq]
  constructor
  · unfold singleBucketState initMixer
    simp only [MixerState.mk.injEq]
    refine ⟨?_, by trivial⟩
    funext k
    by_cases hk : k = msKey 0 <;> simp [singleBucketState, initMixer, hk, contribBucket, satAccum]
  · rfl

theorem posRun (n : Nat) : ∀ v : Int, -(2 ^ 31) ≤ v → v ≤ 2 ^ 31 - 1 →
    (runFrom (singleBucketState v) (List.replicate n ((0 : Nat), posInput))).1
      = singleBucketState (min (2 ^ 31 - 1) (v + 32767 * n)) := by
  induction n with
  | zero =>
      intro v h1 h2
      simp only [List.replicate, runFrom]
      congr 1
      push_cast
      omega
  | succ k ih =>
      intro v h1 h2
      have hpos : posInput = (⟨0, 48000, 1, [32767]⟩ : MixerInput) := rfl
      rw [hpos] at ih
      rw [List.replicate_succ, hpos, runFrom_cons, singleStep v 32767]
      have hrw : (singleBucketState (satAddI32 v 32767),
          some (⟨(msKey 0 : ℚ) * (CHUNK_MS : ℚ), 48000, 1,
            [clampI16 (satAddI32 v 32767)]⟩ : MixedChunk)).1
          = singleBucketState (satAddI32 v 32767) := rfl
      rw [hrw, ih (satAddI32 v 32767) (by unfold satAddI32; omega)
        (by unfold satAddI32; omega)]
      congr 1
      unfold satAddI32
      push_cast
      omega

theorem negRun (n : Nat) : ∀ v : Int, -(2 ^ 31) ≤ v → v ≤ 2 ^ 31 - 1 →
    (runFrom (singleBucketState v) (List.replicate n ((0 : Nat), negInput))).1
      = singleBucketState (max (-(2 ^ 31)) (v - 32767 * n)) := by
  induction n with
  | zero =>
      intro v h1 h2
      simp only [List.replicate, runFrom]
      congr 1
      push_cast
      omega
  | succ k ih =>
      intro v h1 h2
      have hneg : negInput = (⟨0, 48000, 1, [-32767]⟩ : MixerInput) := rfl
      rw [hneg] at ih
      rw [List.replicate_succ, hneg, runFrom_cons, singleStep v (-32767)]
      have hrw : (singleBucketState (satAddI32 v (-32767)),
          some (⟨(msKey 0 : ℚ) * (CHUNK_MS : ℚ), 48000, 1,
            [clampI16 (satAddI32 v (-32767))]⟩ : MixedChunk)).1
          = singleBucketState (satAddI32 v (-32767)) := rfl
      rw [hrw, ih (satAddI32 v (-32767)) (by unfold satAddI32; omega)
        (by unfold satAddI32; omega)]
      congr 1
      unfold satAddI32
      push_cast
      omega

theorem runFrom_chunks_wf (evs : List (Nat × MixerInput)) :
    ∀ st, BucketsWF st →
      ∀ c ∈ (runFrom st evs).2,
        c.channels = 1 ∧ ∃ k : Nat, c.start_ms = (k : ℚ) * (CHUNK_MS : ℚ) := by
  induction evs with
  | nil =>
      intro st _ c hc
      simp [runFrom] at hc
  | cons ev rest ih =>
      intro st hwf c hc
      obtain ⟨hwf', hout⟩ := bucketsWF_step ev.1 st ev.2 hwf
      simp only [runFrom, List.mem_append] at hc
      rcases hc with hc | hc
      · rcases hss : (mixStep ev.1 st ev.2).2 with _ | c2
        · rw [hss] at hc
          simp at hc
        · rw [hss] at hc
          simp only [Option.toList_some, List.mem_singleton] at hc
          rw [hc]
          exact hout c2 hss
      · exact ih (mixStep ev.1 st ev.2).1 hwf' c hc

end Mixer

/-- Index lookup in a frame-major interleaving: the element at
`fr * target + ch` of the concatenation of per-frame rows is the row entry
`g fr ch`.  Generalized over the starting frame for the induction. -/
theorem interleave_aux {α : Type} (g : Nat → Nat → α) (target : Nat) :
    ∀ n s fr ch, fr < n → ch < target →
      (((List.range' s n).flatMap fun f =>
        (List.range target).map (g f))[fr * target + ch]?) = some (g (s + fr) ch) := by
  intro n
  induction n with
  | zero =>
      intro s fr ch hfr _
      omega
  | succ k ih =>
      intro s fr ch hfr hch
      rw [List.range'_succ, List.flatMap_cons]
      have hlen : ((List.range target).map (g s)).length = target := by simp
      cases fr with
      | zero =>
          rw [List.getElem?_append, if_pos (by rw [hlen]; simpa using hch)]
          have hidx : 0 * target + ch = ch := by omega
          rw [hidx, List.getElem?_map, List.getElem?_range hch]
          rfl
      | succ m =>
          rw [List.getElem?_append, if_neg (by rw [hlen]; nlinarith)]
          have hidx : (m + 1) * target + ch - ((List.range target).map (g s)).length
              = m * target + ch := by
            rw [hlen]
            ring_nf
            omega
          rw [hidx, ih (s + 1) m ch (by omega) hch]
          congr 2
          omega

theorem interleave_getElem {α : Type} (g : Nat → Nat → α)
    (frames target fr ch : Nat) (hfr : fr < frames) (hch : ch < target) :
    (((List.range frames).flatMap fun f =>
      (List.range target).map (g f))[fr * target + ch]?) = some (g fr ch) := by
  rw [List.range_eq_range']
  have h := interleave_aux g target frames 0 fr ch hfr hch
  simpa using h

theorem interleave_length {α : Type} (g : Nat → Nat → α) (target : Nat) :
    ∀ l : List Nat,
      (l.flatMap fun f => (List.range target).map (g f)).length
        = l.length * target := by
  intro l
  induction l with
  | nil => simp
  | cons a rest ih =>
      rw [List.flatMap_cons, List.length_append, ih]
      simp
      ring

namespace Session

theorem cbb_nil : ConfigBeforeBinary [] := by
  intro i hi
  simp at hi

theorem cbb_cons_nonbin (m : ServerMsg) (t : List ServerMsg)
    (hm : isVideoBinary m = false) (ht : ConfigBeforeBinary t) :
    ConfigBeforeBinary (m :: t) := by
  intro i hi hbin
  cases i with
  | zero =>
      rw [show (m :: t).get ⟨0, hi⟩ = m from rfl] at hbin
      rw [hm] at hbin
      exact absurd hbin (by simp)
  | succ n =>
      have hn : n < t.length := by simpa using hi
      have hbin2 : isVideoBinary (t.get ⟨n, hn⟩) = true := hbin
      obtain ⟨j, hji, hj, hcfg⟩ := ht n hn hbin2
      exact ⟨j + 1, by omega, by simpa using hj, hcfg⟩

theorem cbb_cons_cfg (c : ConfigPayload) (t : List ServerMsg) :
    ConfigBeforeBinary (ServerMsg.videoConfig c :: t) := by
  intro i hi hbin
  cases i with
  | zero =>
      rw [show (ServerMsg.videoConfig c :: t).get ⟨0, hi⟩
        = ServerMsg.videoConfig c from rfl] at hbin
      exact absurd hbin (by simp [isVideoBinary])
  | succ n =>
      exact ⟨0, by omega, by simp, by simp [isVideoConfig]⟩

/-- The per-event emissions of `run_video` contain at most one
`video-config`, and none at all once the config was already sent. -/
theorem runVideo_cfg_count : ∀ (events : List Event) (s : SessState),
    (runVideoMsgs s events).countP isVideoConfig
      ≤ (if s.configSent then 0 else 1) := by
  intro events
  induction events with
  | nil =>
      intro s
      simp [runVideoMsgs]
  | cons e rest ih =>
      intro s
      show ((liveStep s e).2 ++ runVideoMsgs (liveStep s e).1 rest).countP
          isVideoConfig ≤ _
      rw [List.countP_append]
      by_cases hstop : s.stopped
      · have hls : liveStep s e = (s, []) := by
          unfold liveStep
          rw [if_pos hstop]
        rw [hls]
        simpa using ih s
      · cases e with
        | wsText fk =>
            have hls : liveStep s (.wsText fk)
                = ({ s with forceIdr := s.forceIdr || fk }, []) := by
              unfold liveStep
              rw [if_neg hstop]
            rw [hls]
            simpa using ih _
        | wsBinary d =>
            have hls : liveStep s (.wsBinary d) = (s, []) := by
              unfold liveStep
              rw [if_neg hstop]
            rw [hls]
            simpa using ih _
        | wsPing p =>
            have hls : liveStep s (.wsPing p) = (s, [.pong p]) := by
              unfold liveStep
              rw [if_neg hstop]
            rw [hls]
            simpa [isVideoConfig] using ih _
        | wsClose =>
            have hls : liveStep s .wsClose
                = ({ s with stopped := true }, [.closeEcho]) := by
              unfold liveStep
              rw [if_neg hstop]
            rw [hls]
            simpa [isVideoConfig] using ih _
        | wsError =>
            have hls : liveStep s .wsError = ({ s with stopped := true }, []) := by
              unfold liveStep
              rw [if_neg hstop]
            rw [hls]
            simpa using ih _
        | wsEnd =>
            have hls : liveStep s .wsEnd = ({ s with stopped := true }, []) := by
              unfold liveStep
              rw [if_neg hstop]
            rw [hls]
            simpa using ih _
        | directAudio ch =>
            have hls : liveStep s (.directAudio ch)
                = (s, [.audioBinary (build_direct_audio_chunk ch)]) := by
              unfold liveStep
              rw [if_neg hstop]
            rw [hls]
            simpa [isVideoConfig] using ih _
        | mixerAudio ch =>
            have hls : liveStep s (.mixerAudio ch)
                = (s, [.audioBinary (Wire.build_audio_chunk ch)]) := by
              unfold liveStep
              rw [if_neg hstop]
            rw [hls]
            simpa [isVideoConfig] using ih _
        | frameEnd =>
            have hls : liveStep s .frameEnd = ({ s with stopped := true }, []) := by
              unfold liveStep
              rw [if_neg hstop]
            rw [hls]
            simpa using ih _
        | frameEvt enc cfg =>
            cases enc with
            | none =>
                have hls : liveStep s (.frameEvt none cfg)
                    = ({ s with forceIdr := false }, []) := by
                  unfold liveStep
                  rw [if_neg hstop]
                rw [hls]
                simpa using ih _
            | some chunkData =>
                by_cases hsent : s.configSent
                · have hls : liveStep s (.frameEvt (some chunkData) cfg)
                      = ({ s with forceIdr := false },
                         [.videoBinary chunkData]) := by
                    unfold liveStep
                    rw [if_neg hstop]
                    simp [hsent]
                  rw [hls]
                  have hihb := ih ({ s with forceIdr := false } : SessState)
                  simp only [hsent, if_pos] at hihb ⊢
                  simpa [isVideoConfig] using hihb
                · by_cases hgood : goodCfg cfg = true
                  · have hls : liveStep s (.frameEvt (some chunkData) cfg)
                        = ({ s with configSent := true, forceIdr := false },
                           [.videoConfig ⟨cfg.width, cfg.height,
                             cfg.description_b64⟩,
                            .videoBinary chunkData]) := by
                      unfold liveStep
                      rw [if_neg hstop]
                      simp [hsent, hgood]
                    rw [hls]
                    dsimp only
                    rw [if_neg hsent]
                    have hihb := ih
                      ({ s with configSent := true, forceIdr := false } : SessState)
                    rw [show (({ s with configSent := true, forceIdr := false }
                        : SessState)).configSent = true from rfl,
                      if_pos rfl] at hihb
                    simp only [List.countP_cons, List.countP_nil]
                    have hc1 : isVideoConfig (ServerMsg.videoConfig
                        ⟨cfg.width, cfg.height, cfg.description_b64⟩) = true := rfl
                    have hc2 : isVideoConfig (ServerMsg.videoBinary chunkData)
                        = false := rfl
                    rw [hc1, hc2]
                    norm_num
                    intro a ha
                    exact Bool.eq_false_iff.mpr
                      (List.countP_eq_zero.mp (Nat.le_zero.mp hihb) a ha)
                  · have hls : liveStep s (.frameEvt (some chunkData) cfg)
                        = ({ s with forceIdr := false }, []) := by
                      unfold liveStep
                      rw [if_neg hstop]
                      simp [hsent, hgood]
                    rw [hls]
                    simpa using ih _

/-- Before the config is sent, `run_video` never emits a video binary
without first emitting the config. -/
theorem runVideo_cbb : ∀ (events : List Event) (s : SessState),
    s.configSent = false → ConfigBeforeBinary (runVideoMsgs s events) := by
  intro events
  induction events with
  | nil =>
      intro s _
      exact cbb_nil
  | cons e rest ih =>
      intro s hsent
      show ConfigBeforeBinary ((liveStep s e).2 ++ runVideoMsgs (liveStep s e).1 rest)
      by_cases hstop : s.stopped
      · have hls : liveStep s e = (s, []) := by
          unfold liveStep
          rw [if_pos hstop]
        rw [hls]
        exact ih s hsent
      · cases e with
        | wsText fk =>
            have hls : liveStep s (.wsText fk)
                = ({ s with forceIdr := s.forceIdr || fk }, []) := by
              unfold liveStep
              rw [if_neg hstop]
            rw [hls]
            exact ih _ hsent
        | wsBinary d =>
            have hls : liveStep s (.wsBinary d) = (s, []) := by
              unfold liveStep
              rw [if_neg hstop]
            rw [hls]
            exact ih _ hsent
        | wsPing p =>
            have hls : liveStep s (.wsPing p) = (s, [.pong p]) := by
              unfold liveStep
              rw [if_neg hstop]
            rw [hls]
            exact cbb_cons_nonbin _ _ rfl (ih _ hsent)
        | wsClose =>
            have hls : liveStep s .wsClose
                = ({ s with stopped := true }, [.closeEcho]) := by
              unfold liveStep
              rw [if_neg hstop]
            rw [hls]
            exact cbb_cons_nonbin _ _ rfl (ih _ hsent)
        | wsError =>
            have hls : liveStep s .wsError = ({ s with stopped := true }, []) := by
              unfold liveStep
              rw [if_neg hstop]
            rw [hls]
            exact ih _ hsent
        | wsEnd =>
            have hls : liveStep s .wsEnd = ({ s with stopped := true }, []) := by
              unfold liveStep
              rw [if_neg hstop]
            rw [hls]
            exact ih _ hsent
        | directAudio ch =>
            have hls : liveStep s (.directAudio ch)
                = (s, [.audioBinary (build_direct_audio_chunk ch)]) := by
              unfold liveStep
              rw [if_neg hstop]
            rw [hls]
            exact cbb_cons_nonbin _ _ rfl (ih _ hsent)
        | mixerAudio ch =>
            have hls : liveStep s (.mixerAudio ch)
                = (s, [.audioBinary (Wire.build_audio_chunk ch)]) := by
              unfold liveStep
              rw [if_neg hstop]
            rw [hls]
            exact cbb_cons_nonbin _ _ rfl (ih _ hsent)
        | frameEnd =>
            have hls : liveStep s .frameEnd = ({ s with stopped := true }, []) := by
              unfold liveStep
              rw [if_neg hstop]
            rw [hls]
            exact ih _ hsent
        | frameEvt enc cfg =>
            cases enc with
            | none =>
                have hls : liveStep s (.frameEvt none cfg)
                    = ({ s with forceIdr := false }, []) := by
                  unfold liveStep
                  rw [if_neg hstop]
                rw [hls]
                exact ih _ hsent
            | some chunkData =>
                by_cases hgood : goodCfg cfg = true
                · have hls : liveStep s (.frameEvt (some chunkData) cfg)
                      = ({ s with configSent := true, forceIdr := false },
                         [.videoConfig ⟨cfg.width, cfg.height,
                           cfg.description_b64⟩,
                          .videoBinary chunkData]) := by
                    unfold liveStep
                    rw [if_neg hstop]
                    simp [hsent, hgood]
                  rw [hls]
                  exact cbb_cons_cfg _ _
                · have hls : liveStep s (.frameEvt (some chunkData) cfg)
                      = ({ s with forceIdr := false }, []) := by
                    unfold liveStep
                    rw [if_neg hstop]
                    simp [hsent, hgood]
                  rw [hls]
                  exact ih _ hsent

/-- Every message the audio chunking loop emits is an audio binary. -/
theorem audioChunkMsgs_shape (samples : List Int) (rate chunkSz endS : Nat) :
    ∀ fuel pos, ∀ m ∈ audioChunkMsgs samples rate chunkSz endS fuel pos,
      isAudioBinary m = true := by
  intro fuel
  induction fuel with
  | zero =>
      intro pos m hm
      simp [audioChunkMsgs] at hm
  | succ k ih =>
      intro pos m hm
      unfold audioChunkMsgs at hm
      split_ifs at hm with h1 h2
      · rcases List.mem_cons.mp hm with hm | hm
        · rw [hm]
          rfl
        · exact ih _ m hm
      · exact ih _ m hm
      · simp at hm

/-- Every message one playback pass emits is a video or audio binary. -/
theorem passGo_shape (pcmOpt : Option DecodedPcm) (startT : ℚ) :
    ∀ (frames : List DemuxFrame) (lastA : ℚ) (fk : Bool),
      ∀ m ∈ passGo pcmOpt startT frames lastA fk,
        isVideoBinary m = true ∨ isAudioBinary m = true := by
  intro frames
  induction frames with
  | nil =>
      intro lastA fk m hm
      simp [passGo] at hm
  | cons f rest ih =>
      intro lastA fk m hm
      unfold passGo at hm
      split_ifs at hm with h1 h2
      · exact ih _ _ m hm
      · exact ih _ _ m hm
      · rcases hpcm : pcmOpt with _ | pcm
        · subst hpcm
          simp only at hm
          rcases List.mem_cons.mp hm with hm | hm
          · rw [hm]
            exact Or.inl rfl
          · exact ih _ _ m hm
        · subst hpcm
          simp only at hm
          rcases List.mem_append.mp hm with hm | hm
          · exact Or.inr (audioChunkMsgs_shape _ _ _ _ _ _ m hm)
          · rcases List.mem_cons.mp hm with hm | hm
            · rw [hm]
              exact Or.inl rfl
            · exact ih _ _ m hm

/-- The playback body (all passes) contains no `video-config` text. -/
theorem playback_body_no_cfg (pcmOpt : Option DecodedPcm) (startT : ℚ)
    (frames : List DemuxFrame) (passes : Nat) :
    ∀ m ∈ (List.range passes).flatMap
        (fun _ => onePassMsgs pcmOpt startT frames),
      isVideoConfig m = false := by
  intro m hm
  obtain ⟨x, _, hm2⟩ := List.mem_flatMap.mp hm
  rcases passGo_shape pcmOpt startT frames startT false m hm2 with h | h
  · cases m <;> simp_all [isVideoBinary, isVideoConfig]
  · cases m <;> simp_all [isAudioBinary, isVideoConfig]

end Session

/-! ## Claim theorems -/

/-- C3, counterexample: `build_audio_chunk` writes `samples.len() as u32`,
so a chunk of 2^32 samples round-trips to an empty sample list — the claimed
round trip for arbitrary sample lists fails.  (The header truncates to a
sample count of 0, `parse_audio_chunk` then reads 0 samples.) -/
theorem c3_counterexample :
    Wire.parse_audio_chunk (Wire.build_audio_chunk Wire.bigChunk)
      ≠ some ⟨Wire.bigChunk.start_ms, Wire.bigChunk.sample_rate,
          Wire.bigChunk.channels, Wire.bigChunk.samples⟩ := by
  rw [Wire.parse_build]
  intro h
  have h2 := Option.some.inj h
  simp only [Wire.MixerInput.mk.injEq] at h2
  obtain ⟨-, -, -, hsam⟩ := h2
  have hbig : Wire.bigChunk.samples.length = 2 ^ 32 :=
    List.length_replicate (2 ^ 32) 0
  have hz : Wire.bigChunk.samples.length % 2 ^ 32 = 0 := by
    rw [hbig]
    exact Nat.mod_self _
  rw [hz, Nat.mul_zero, List.take_zero,
    show Wire.decodeSamples [] = [] from rfl] at hsam
  have hlen := congrArg List.length hsam
  rw [hbig] at hlen
  exact absurd hlen (by norm_num)

/-- C3 (amended): for every audio chunk whose sample list has fewer than 2^32
entries (and whose header fields fit their wire widths, as the Rust types
guarantee), parsing the built bytes returns exactly the original fields and
samples; and `parse_audio_chunk` returns `none` on every buffer shorter than
`24 + 2 * sample_count` bytes. -/
theorem c3_aud0_round_trip (c : Wire.MixedChunk)
    (hstart : c.start_ms < 2 ^ 64) (hsr : c.sample_rate < 2 ^ 32)
    (hch : c.channels < 2 ^ 32) (hlen : c.samples.length < 2 ^ 32)
    (hs : ∀ s ∈ c.samples, -32768 ≤ s ∧ s < 32768) :
    Wire.parse_audio_chunk (Wire.build_audio_chunk c)
      = some ⟨c.start_ms, c.sample_rate, c.channels, c.samples⟩ ∧
    ∀ buf : List Nat, buf.length < 24 + 2 * Wire.sampleCountOf buf →
      Wire.parse_audio_chunk buf = none := by
  constructor
  · rw [Wire.parse_build]
    have hmod : c.samples.length % 2 ^ 32 = c.samples.length :=
      Nat.mod_eq_of_lt hlen
    have htake : (c.samples.flatMap Wire.encodeSample).take
        (2 * (c.samples.length % 2 ^ 32)) = c.samples.flatMap Wire.encodeSample := by
      rw [hmod, ← Wire.payload_length c.samples, List.take_length]
    rw [htake, Wire.decode_encode c.samples hs,
      Nat.mod_eq_of_lt hstart, Nat.mod_eq_of_lt hsr, Nat.mod_eq_of_lt hch]
  · intro buf hbuf
    unfold Wire.parse_audio_chunk
    unfold Wire.sampleCountOf at hbuf
    split_ifs with h1 h2
    · omega
    · rfl
    · rfl

/-- C3 witness: a concrete two-sample chunk round-trips, applying
`c3_aud0_round_trip` at that chunk. -/
theorem c3_witness :
    Wire.parse_audio_chunk (Wire.build_audio_chunk ⟨1234, 48000, 1, [100, -200]⟩)
      = some ⟨1234, 48000, 1, [100, -200]⟩ :=
  (c3_aud0_round_trip ⟨1234, 48000, 1, [100, -200]⟩ (by norm_num) (by norm_num)
    (by norm_num) (by norm_num) (by decide)).1

/-- C10: `parse_audio_chunk` is total and permissive about length in one
direction only: on a buffer with the AUD0 magic and at least
`24 + 2 * sample_count` bytes it succeeds, reads exactly `sample_count`
samples, and ignores everything past that bound (parsing the truncated
buffer gives the same result); on bad magic or a short buffer it returns
`none` (never panics — the model is a total function into `Option`). -/
theorem c10_parse_total_permissive :
    (∀ buf : List Nat, Wire.is_audio_magic buf = true →
       24 + 2 * Wire.sampleCountOf buf ≤ buf.length →
       ∃ m, Wire.parse_audio_chunk buf = some m ∧
         m.samples.length = Wire.sampleCountOf buf ∧
         Wire.parse_audio_chunk (buf.take (24 + 2 * Wire.sampleCountOf buf))
           = Wire.parse_audio_chunk buf) ∧
    (∀ buf : List Nat,
       Wire.is_audio_magic buf = false ∨
         buf.length < 24 + 2 * Wire.sampleCountOf buf →
       Wire.parse_audio_chunk buf = none) := by
  constructor
  · intro buf hmagic hlong
    have h24 : 24 ≤ buf.length := by
      unfold Wire.sampleCountOf at hlong
      omega
    have hparse : Wire.parse_audio_chunk buf = some
        { start_ms := leNum ((buf.drop 4).take 8)
          sample_rate := leNum ((buf.drop 12).take 4)
          channels := leNum ((buf.drop 16).take 4)
          samples := Wire.decodeSamples ((buf.drop 24).take
            (2 * Wire.sampleCountOf buf)) } := by
      unfold Wire.parse_audio_chunk
      rw [if_pos ⟨hmagic, h24⟩, if_pos (by exact hlong)]
      rfl
    refine ⟨_, hparse, ?_, ?_⟩
    · unfold Wire.sampleCountOf at hlong ⊢
      simp only [Wire.decodeSamples_length, List.length_take, List.length_drop]
      omega
    · -- every read lies within the first 24 + 2·count bytes
      set N := 24 + 2 * Wire.sampleCountOf buf with hN
      have hcut : ∀ k n : Nat, k + n ≤ N →
          ((buf.take N).drop k).take n = (buf.drop k).take n := by
        intro k n hkn
        rw [List.drop_take, List.take_take]
        congr 1
        omega
      have hNlen : (buf.take N).length = N := by
        simp [List.length_take]
        omega
      have hmagic2 : Wire.is_audio_magic (buf.take N) = true := by
        simp only [Wire.is_audio_magic, Bool.and_eq_true, decide_eq_true_eq] at hmagic ⊢
        constructor
        · omega
        · have h4 : (buf.take N).take 4 = buf.take 4 := by
            rw [List.take_take]
            congr 1
            omega
          rw [h4]
          exact hmagic.2
      have hcnt : Wire.sampleCountOf (buf.take N) = Wire.sampleCountOf buf := by
        unfold Wire.sampleCountOf
        rw [hcut 20 4 (by omega)]
      have hlong2 : 24 + 2 * leNum (((buf.take N).drop 20).take 4)
          ≤ (buf.take N).length := by
        have hcc : leNum (((buf.take N).drop 20).take 4) = Wire.sampleCountOf buf :=
          hcnt
        rw [hcc, hNlen]
      have hparse2 : Wire.parse_audio_chunk (buf.take N) = some
          { start_ms := leNum (((buf.take N).drop 4).take 8)
            sample_rate := leNum (((buf.take N).drop 12).take 4)
            channels := leNum (((buf.take N).drop 16).take 4)
            samples := Wire.decodeSamples (((buf.take N).drop 24).take
              (2 * leNum (((buf.take N).drop 20).take 4))) } := by
        unfold Wire.parse_audio_chunk
        rw [if_pos ⟨hmagic2, by omega⟩, if_pos hlong2]
      have e4 : ((buf.take N).drop 4).take 8 = (buf.drop 4).take 8 :=
        hcut 4 8 (by omega)
      have e12 : ((buf.take N).drop 12).take 4 = (buf.drop 12).take 4 :=
        hcut 12 4 (by omega)
      have e16 : ((buf.take N).drop 16).take 4 = (buf.drop 16).take 4 :=
        hcut 16 4 (by omega)
      have e24 : ((buf.take N).drop 24).take
          (2 * leNum (((buf.take N).drop 20).take 4))
          = (buf.drop 24).take (2 * Wire.sampleCountOf buf) := by
        rw [show leNum (((buf.take N).drop 20).take 4) = Wire.sampleCountOf buf
          from hcnt, hcut 24 (2 * Wire.sampleCountOf buf) (by omega)]
      rw [hparse2, hparse]
      simp only [Option.some.injEq, Wire.MixerInput.mk.injEq]
      exact ⟨by rw [e4], by rw [e12], by rw [e16], by rw [e24]⟩
  · intro buf hbad
    unfold Wire.parse_audio_chunk
    rcases hbad with hm | hshort
    · rw [if_neg]
      intro hcon
      rw [hcon.1] at hm
      exact Bool.noConfusion hm
    · unfold Wire.sampleCountOf at hshort
      split_ifs with h1 h2
      · omega
      · rfl
      · rfl

/-- C10 witness: `c10_parse_total_permissive` applied to a concrete 29-byte
buffer — one sample and three trailing bytes. -/
theorem c10_witness :
    ∃ m, Wire.parse_audio_chunk Wire.bufC10 = some m ∧
      m.samples.length = Wire.sampleCountOf Wire.bufC10 ∧
      Wire.parse_audio_chunk (Wire.bufC10.take
        (24 + 2 * Wire.sampleCountOf Wire.bufC10))
        = Wire.parse_audio_chunk Wire.bufC10 :=
  c10_parse_total_permissive.1 Wire.bufC10 (by decide) (by decide)

/-- C2, counterexample: a 1 × 3000000 frame is over budget (3000000 pixels >
MAX_PIXELS), the computed scale is 2, and `1 / 2 = 0` triggers the
zero-dimension bail-out: the frame is returned unchanged with scale 1, so
neither disjunct of the claim holds — the returned dimensions exceed the
budget AND the frame has more than MAX_PIXELS pixels.  (The claimed
minimality also fails here: scale 2 meets the budget, yet 1 is returned.) -/
theorem c2_counterexample :
    ¬ (((DS.downsample DS.tallFrame).frame.width
          * (DS.downsample DS.tallFrame).frame.height ≤ DS.MAX_PIXELS) ∨
       ((DS.downsample DS.tallFrame).scale = 1 ∧
        (DS.downsample DS.tallFrame).frame = DS.tallFrame ∧
        DS.tallFrame.width * DS.tallFrame.height ≤ DS.MAX_PIXELS)) := by
  have hd : DS.downsample DS.tallFrame = ⟨DS.tallFrame, 1⟩ := rfl
  have hw : DS.tallFrame.width = 1 := rfl
  have hh : DS.tallFrame.height = 3000000 := rfl
  intro hcl
  rcases hcl with hbud | ⟨-, -, hsmall⟩
  · rw [hd] at hbud
    have hb2 : DS.tallFrame.width * DS.tallFrame.height ≤ DS.MAX_PIXELS := hbud
    rw [hw, hh] at hb2
    norm_num [DS.MAX_PIXELS] at hb2
  · rw [hw, hh] at hsmall
    norm_num [DS.MAX_PIXELS] at hsmall

/-- C2 (amended): `Downsampler::downsample` either returns the frame
unchanged with scale 1 — which happens exactly when the pixel count is
within MAX_PIXELS or when floor-dividing by the selected scale would zero a
dimension — or downscales so that the returned dimensions are the original
ones floor-divided by the scale, their product is at most MAX_PIXELS, and
the scale is the LEAST integer at or above
`max(2, ceil(sqrt(ceil(pixels / MAX_PIXELS))))` meeting the budget (the
loop's cap at 16 never binds: whenever the starting scale is at most 16 the
budget is reached by 16). -/
theorem c2_downsample_amended (f : DS.Frame) :
    ((DS.downsample f).scale = 1 ∧ (DS.downsample f).frame = f ∧
      (f.width * f.height ≤ DS.MAX_PIXELS ∨
        f.width / DS.chosenScale f.width f.height = 0 ∨
        f.height / DS.chosenScale f.width f.height = 0)) ∨
    (2 ≤ (DS.downsample f).scale ∧
      (DS.downsample f).scale = DS.chosenScale f.width f.height ∧
      (DS.downsample f).frame.width = f.width / (DS.downsample f).scale ∧
      (DS.downsample f).frame.height = f.height / (DS.downsample f).scale ∧
      (DS.downsample f).frame.width * (DS.downsample f).frame.height
        ≤ DS.MAX_PIXELS ∧
      IsLeast {s : Nat | DS.startScale (f.width * f.height) ≤ s ∧
        (f.width / s) * (f.height / s) ≤ DS.MAX_PIXELS}
        (DS.downsample f).scale) := by
  rcases le_or_lt (f.width * f.height) DS.MAX_PIXELS with hsmall | hbig
  · left
    have hcs : DS.chosenScale f.width f.height = 1 := by
      unfold DS.chosenScale
      rw [if_neg (by omega)]
    have hd : DS.downsample f = ⟨f, 1⟩ := by
      unfold DS.downsample
      rw [hcs]
      simp
    rw [hd]
    exact ⟨rfl, rfl, Or.inl hsmall⟩
  · obtain ⟨hstart, hbud, hmin⟩ := DS.chosenScale_spec f.width f.height hbig
    have h2 : 2 ≤ DS.chosenScale f.width f.height :=
      le_trans (DS.startScale_ge_two _) hstart
    rcases Classical.em (f.width / DS.chosenScale f.width f.height = 0 ∨
        f.height / DS.chosenScale f.width f.height = 0) with hz | hnz
    · left
      have hd : DS.downsample f = ⟨f, 1⟩ := by
        unfold DS.downsample
        rw [if_neg (by omega), if_pos hz]
      rw [hd]
      exact ⟨rfl, rfl, Or.inr hz⟩
    · right
      have hd : DS.downsample f =
          ⟨⟨f.width / DS.chosenScale f.width f.height,
            f.height / DS.chosenScale f.width f.height,
            DS.downsampledRaw f.raw f.width
              (f.width / DS.chosenScale f.width f.height)
              (f.height / DS.chosenScale f.width f.height)
              (DS.chosenScale f.width f.height)⟩,
            DS.chosenScale f.width f.height⟩ := by
        unfold DS.downsample
        rw [if_neg (by omega), if_neg hnz]
      rw [hd]
      exact ⟨h2, rfl, rfl, rfl, hbud, ⟨hstart, hbud⟩, fun t ht => hmin t ht.1 ht.2⟩

/-- C9: every chunk the mixer ever emits is mono with a start on a
`CHUNK_MS` boundary; a contribution whose sample rate differs from its
bucket's leaves the state completely unchanged and emits nothing; a
surviving bucket never changes its rate, channel count or start; a freshly
created bucket copies its first contributor's rate and channel count; and
an emitted chunk carries exactly the fields of its (post-step) bucket. -/
theorem c9_mixer_invariants :
    (∀ evs : List (Nat × Mixer.MixerInput), ∀ c ∈ (Mixer.runMixer evs).2,
       c.channels = 1 ∧ ∃ k : Nat, c.start_ms = (k : ℚ) * (Mixer.CHUNK_MS : ℚ)) ∧
    (∀ now st input b, input.channels = 1 →
       st.buckets (Mixer.msKey input.start_ms) = some b →
       b.sample_rate ≠ input.sample_rate →
       Mixer.mixStep now st input = (st, none)) ∧
    (∀ now st input k b b',
       st.buckets k = some b →
       (Mixer.mixStep now st input).1.buckets k = some b' →
       b'.sample_rate = b.sample_rate ∧ b'.channels = b.channels ∧
         b'.start_ms = b.start_ms) ∧
    (∀ now st input k b',
       st.buckets k = none →
       (Mixer.mixStep now st input).1.buckets k = some b' →
       b'.sample_rate = input.sample_rate ∧ b'.channels = input.channels) ∧
    (∀ now st input st' c,
       Mixer.mixStep now st input = (st', some c) →
       ∃ b', st'.buckets (Mixer.msKey input.start_ms) = some b' ∧
         c.sample_rate = b'.sample_rate ∧ c.channels = b'.channels ∧
         c.start_ms = b'.start_ms) := by
  refine ⟨?_, ?_, ?_, ?_, ?_⟩
  · intro evs c hc
    refine Mixer.runFrom_chunks_wf evs Mixer.initMixer ?_ c hc
    intro k b h
    simp [Mixer.initMixer] at h
  · intro now st input b hmono hb hmm
    exact Mixer.mixStep_mismatch now st input b hmono hb hmm
  · intro now st input k b b' hb hb'
    by_cases hch : input.channels = 1
    · by_cases hmm : (Mixer.bucket0 now st input).sample_rate = input.sample_rate ∧
          (Mixer.bucket0 now st input).channels = input.channels
      · rw [Mixer.mixStep_contrib now st input hch hmm.1 hmm.2] at hb'
        have hsub := Mixer.pruneIfDue_lookup_sub now st.last_prune _ k b' hb'
        by_cases hk : k = Mixer.msKey input.start_ms
        · rw [if_pos hk] at hsub
          have hb0 : Mixer.bucket0 now st input = b := by
            unfold Mixer.bucket0
            rw [← hk, hb]
          rw [hb0] at hsub
          rw [← Option.some.inj hsub]
          exact ⟨rfl, rfl, rfl⟩
        · rw [if_neg hk] at hsub
          rw [hb] at hsub
          rw [← Option.some.inj hsub]
          exact ⟨rfl, rfl, rfl⟩
      · have hskip : (Mixer.bucket0 now st input).sample_rate ≠ input.sample_rate ∨
            (Mixer.bucket0 now st input).channels ≠ input.channels := by tauto
        rw [Mixer.mixStep_skip now st input hch hskip] at hb'
        rw [hb] at hb'
        rw [← Option.some.inj hb']
        exact ⟨rfl, rfl, rfl⟩
    · rw [Mixer.mixStep_nonmono now st input hch] at hb'
      rw [hb] at hb'
      rw [← Option.some.inj hb']
      exact ⟨rfl, rfl, rfl⟩
  · intro now st input k b' hnone hb'
    by_cases hch : input.channels = 1
    · by_cases hmm : (Mixer.bucket0 now st input).sample_rate = input.sample_rate ∧
          (Mixer.bucket0 now st input).channels = input.channels
      · rw [Mixer.mixStep_contrib now st input hch hmm.1 hmm.2] at hb'
        have hsub := Mixer.pruneIfDue_lookup_sub now st.last_prune _ k b' hb'
        by_cases hk : k = Mixer.msKey input.start_ms
        · rw [if_pos hk] at hsub
          have hb0 : Mixer.bucket0 now st input =
              ⟨(Mixer.msKey input.start_ms : ℚ) * (Mixer.CHUNK_MS : ℚ),
                input.sample_rate, input.channels, [], 0, now⟩ := by
            unfold Mixer.bucket0
            rw [← hk, hnone]
          rw [hb0] at hsub
          rw [← Option.some.inj hsub]
          exact ⟨rfl, rfl⟩
        · rw [if_neg hk, hnone] at hsub
          exact absurd hsub (by simp)
      · have hskip : (Mixer.bucket0 now st input).sample_rate ≠ input.sample_rate ∨
            (Mixer.bucket0 now st input).channels ≠ input.channels := by tauto
        rw [Mixer.mixStep_skip now st input hch hskip] at hb'
        rw [hnone] at hb'
        exact absurd hb' (by simp)
    · rw [Mixer.mixStep_nonmono now st input hch] at hb'
      rw [hnone] at hb'
      exact absurd hb' (by simp)
  · intro now st input st' c hstep
    by_cases hch : input.channels = 1
    · by_cases hmm : (Mixer.bucket0 now st input).sample_rate = input.sample_rate ∧
          (Mixer.bucket0 now st input).channels = input.channels
      · rw [Mixer.mixStep_contrib now st input hch hmm.1 hmm.2] at hstep
        have hst : st' = Mixer.pruneIfDue now st.last_prune
            (fun k => if k = Mixer.msKey input.start_ms then
              some (Mixer.contribBucket now (Mixer.bucket0 now st input) input)
              else st.buckets k) := (Prod.mk.injEq .. |>.mp hstep).1.symm
        have hc : c = Mixer.emittedChunk
            (Mixer.contribBucket now (Mixer.bucket0 now st input) input) :=
          (Option.some.inj (Prod.mk.injEq .. |>.mp hstep).2).symm
        refine ⟨Mixer.contribBucket now (Mixer.bucket0 now st input) input,
          ?_, by rw [hc]; rfl, by rw [hc]; rfl, by rw [hc]; rfl⟩
        rw [hst]
        apply Mixer.pruneIfDue_lookup_fresh
        · rw [if_pos rfl]
        · rfl
      · have hskip : (Mixer.bucket0 now st input).sample_rate ≠ input.sample_rate ∨
            (Mixer.bucket0 now st input).channels ≠ input.channels := by tauto
        rw [Mixer.mixStep_skip now st input hch hskip] at hstep
        exact absurd (Prod.mk.injEq .. |>.mp hstep).2 (by simp)
    · rw [Mixer.mixStep_nonmono now st input hch] at hstep
      exact absurd (Prod.mk.injEq .. |>.mp hstep).2 (by simp)

/-- C9 witness: `c9_mixer_invariants` applied to a concrete mismatched
contribution — a 44100 Hz input against a 48000 Hz bucket is a no-op. -/
theorem c9_witness :
    Mixer.mixStep 7 (Mixer.singleBucketState 5) ⟨0, 44100, 1, [1]⟩
      = (Mixer.singleBucketState 5, none) :=
  c9_mixer_invariants.2.1 7 (Mixer.singleBucketState 5) ⟨0, 44100, 1, [1]⟩
    ⟨(Mixer.msKey 0 : ℚ) * (Mixer.CHUNK_MS : ℚ), 48000, 1, [5], 1, 0⟩
    rfl (by simp [Mixer.singleBucketState]) (by norm_num)

/-- C6, counterexample: the mixer task only executes while processing an
input (`while let Some(input) = rx.recv().await`), so pruning never happens
during an input-free period.  After a single contribution at time 0 and then
silence, the state is unchanged at every later time — in particular more
than `MAX_BUCKET_AGE_MS + CHUNK_MS` later the bucket is still held, where
the claim demands zero buckets. -/
theorem c6_counterexample :
    (Mixer.runMixer [((0 : Nat), Mixer.quietInput)]).1.buckets (Mixer.msKey 0)
      ≠ none := by
  have hq : Mixer.quietInput = (⟨0, 48000, 1, [5]⟩ : Mixer.MixerInput) := rfl
  have hrun : (Mixer.runMixer [((0 : Nat), Mixer.quietInput)]).1
      = (Mixer.mixStep 0 Mixer.initMixer Mixer.quietInput).1 := rfl
  rw [hrun, hq, Mixer.firstStep 5]
  simp [Mixer.singleBucketState]

/-- C6 (amended): pruning is input-driven, not time-driven.  Whenever the
mixer processes a contribution (one that is emitted) at a time more than
`CHUNK_MS` after the last prune, every bucket older than
`MAX_BUCKET_AGE_MS` is dropped from the resulting state and the prune clock
resets — so the first contribution processed after a silent period longer
than `MAX_BUCKET_AGE_MS` leaves no stale bucket; but with no inputs at all,
no pruning occurs and buckets are held indefinitely. -/
theorem c6_prune_amended (now : Nat) (st : Mixer.MixerState)
    (input : Mixer.MixerInput) (st' : Mixer.MixerState) (c : Mixer.MixedChunk)
    (hstep : Mixer.mixStep now st input = (st', some c))
    (hdue : Mixer.CHUNK_MS < now - st.last_prune) :
    (∀ k b, st'.buckets k = some b →
      now - b.last_update ≤ Mixer.MAX_BUCKET_AGE_MS) ∧
    st'.last_prune = now := by
  by_cases hch : input.channels = 1
  · by_cases hmm : (Mixer.bucket0 now st input).sample_rate = input.sample_rate ∧
        (Mixer.bucket0 now st input).channels = input.channels
    · rw [Mixer.mixStep_contrib now st input hch hmm.1 hmm.2] at hstep
      have hst : st' = Mixer.pruneIfDue now st.last_prune
          (fun k => if k = Mixer.msKey input.start_ms then
            some (Mixer.contribBucket now (Mixer.bucket0 now st input) input)
            else st.buckets k) := (Prod.mk.injEq .. |>.mp hstep).1.symm
      rw [hst]
      exact ⟨Mixer.pruneIfDue_young now st.last_prune _ hdue,
        Mixer.pruneIfDue_stamp now st.last_prune _ hdue⟩
    · have hskip : (Mixer.bucket0 now st input).sample_rate ≠ input.sample_rate ∨
          (Mixer.bucket0 now st input).channels ≠ input.channels := by tauto
      rw [Mixer.mixStep_skip now st input hch hskip] at hstep
      exact absurd (Prod.mk.injEq .. |>.mp hstep).2 (by simp)
  · rw [Mixer.mixStep_nonmono now st input hch] at hstep
    exact absurd (Prod.mk.injEq .. |>.mp hstep).2 (by simp)

/-- C6 witness: a contribution at time 3000 into a state whose only bucket
is stale (last update 0, last prune 0) prunes everything old, via
`c6_prune_amended`. -/
theorem c6_witness :
    ∃ st' c, Mixer.mixStep 3000 (Mixer.singleBucketState 5) Mixer.posInput
        = (st', some c) ∧
      (∀ k b, st'.buckets k = some b →
        3000 - b.last_update ≤ Mixer.MAX_BUCKET_AGE_MS) ∧
      st'.last_prune = 3000 := by
  have hb0 : Mixer.bucket0 3000 (Mixer.singleBucketState 5) Mixer.posInput
      = ⟨(Mixer.msKey 0 : ℚ) * (Mixer.CHUNK_MS : ℚ), 48000, 1, [5], 1, 0⟩ := by
    unfold Mixer.bucket0
    simp [Mixer.singleBucketState, Mixer.posInput]
  have hstep := Mixer.mixStep_contrib 3000 (Mixer.singleBucketState 5)
    Mixer.posInput rfl (by rw [hb0]; rfl) (by rw [hb0]; rfl)
  have hdue : Mixer.CHUNK_MS < 3000 - (Mixer.singleBucketState 5).last_prune := by
    simp [Mixer.singleBucketState, Mixer.CHUNK_MS]
  exact ⟨_, _, hstep,
    c6_prune_amended 3000 (Mixer.singleBucketState 5) Mixer.posInput _ _
      hstep hdue⟩

/-- C4, counterexample: with enough contributors the i32 accumulator itself
saturates, and the emitted sample then reflects the saturated accumulator,
not the clamped true sum.  Here 65540 contributions of +32767 saturate the
accumulator at `i32::MAX` (discarding 65533), and 65538 contributions of
−32767 then bring it down to 1: the true sum of the contributions is
2 · 32767 = 65534 > `i16::MAX`, yet the final emitted sample is 1, not
`i16::MAX` — so the claim's "for any contributors ... the sample equals
i16::MAX" fails.  (No wrap-around occurs; the failure is silent
under-reporting after saturation.) -/
theorem c4_counterexample :
    (Mixer.mixStep 0
        (Mixer.runFrom Mixer.initMixer
          (List.replicate 65540 ((0 : Nat), Mixer.posInput)
            ++ List.replicate 65537 ((0 : Nat), Mixer.negInput))).1
        Mixer.negInput).2.map (fun c => c.samples) = some [1] ∧
    (32767 : Int) < 65540 * 32767 + 65538 * (-32767) ∧
    (Mixer.mixStep 0
        (Mixer.runFrom Mixer.initMixer
          (List.replicate 65540 ((0 : Nat), Mixer.posInput)
            ++ List.replicate 65537 ((0 : Nat), Mixer.negInput))).1
        Mixer.negInput).2.map (fun c => c.samples) ≠ some [32767] := by
  have hmid : (Mixer.runFrom Mixer.initMixer
      (List.replicate 65540 ((0 : Nat), Mixer.posInput)
        ++ List.replicate 65537 ((0 : Nat), Mixer.negInput))).1
      = Mixer.singleBucketState 32768 := by
    rw [Mixer.runFrom_append_fst]
    have hpos : Mixer.posInput = (⟨0, 48000, 1, [32767]⟩ : Mixer.MixerInput) := rfl
    have h1 : (Mixer.runFrom Mixer.initMixer
        (List.replicate 65540 ((0 : Nat), Mixer.posInput))).1
        = Mixer.singleBucketState 2147483647 := by
      rw [show (65540 : Nat) = 65539 + 1 from rfl, List.replicate_succ, hpos,
        Mixer.runFrom_cons, Mixer.firstStep 32767]
      have hfst : (Mixer.singleBucketState (Mixer.satAddI32 0 32767),
          some (⟨(Mixer.msKey 0 : ℚ) * (Mixer.CHUNK_MS : ℚ), 48000, 1,
            [Mixer.clampI16 (Mixer.satAddI32 0 32767)]⟩ : Mixer.MixedChunk)).1
          = Mixer.singleBucketState (Mixer.satAddI32 0 32767) := rfl
      rw [hfst]
      have hv : Mixer.satAddI32 0 32767 = 32767 := by
        unfold Mixer.satAddI32
        omega
      rw [hv, ← hpos, Mixer.posRun 65539 32767 (by omega) (by omega)]
      congr 1
    rw [h1, Mixer.negRun 65537 2147483647 (by omega) (by omega)]
    congr 1
  rw [hmid]
  have hneg : Mixer.negInput = (⟨0, 48000, 1, [-32767]⟩ : Mixer.MixerInput) := rfl
  rw [hneg, Mixer.singleStep 32768 (-32767)]
  have hv : Mixer.satAddI32 32768 (-32767) = 1 := by
    unfold Mixer.satAddI32
    omega
  have hcl : Mixer.clampI16 1 = 1 := by
    unfold Mixer.clampI16
    omega
  rw [hv, hcl]
  refine ⟨rfl, by norm_num, ?_⟩
  simp

/-- C4 (amended): the mixer accumulates into its bucket with saturating i32
addition and emits each sample as the i16 clamp of the accumulator; in
particular — as the spec's testable property states it — for any TWO
contributors to the same bucket index, the emitted sample after the second
contribution is the i16 clamp of their exact sum (two i16 values cannot
saturate an i32), so a sum above `i16::MAX` emits exactly `i16::MAX` and a
sum below `i16::MIN` emits exactly `i16::MIN`, with no wrap-around.  (With
enough contributors the i32 accumulator itself can saturate, after which
the emitted sample reflects the saturated accumulator — see the
counterexample.) -/
theorem c4_mixer_saturation (t1 t2 : Nat) (i1 i2 : Mixer.MixerInput) (idx : Nat)
    (hm1 : i1.channels = 1) (hm2 : i2.channels = 1)
    (hr : i1.sample_rate = i2.sample_rate)
    (hkey : Mixer.msKey i1.start_ms = Mixer.msKey i2.start_ms)
    (hs1 : ∀ s ∈ i1.samples, -32768 ≤ s ∧ s ≤ 32767)
    (hs2 : ∀ s ∈ i2.samples, -32768 ≤ s ∧ s ≤ 32767)
    (hl1 : idx < i1.samples.length) (hl2 : idx < i2.samples.length) :
    ∃ st1 c1 st2 c2,
      Mixer.mixStep t1 Mixer.initMixer i1 = (st1, some c1) ∧
      Mixer.mixStep t2 st1 i2 = (st2, some c2) ∧
      c2.samples[idx]? = some (Mixer.clampI16
        (i1.samples.getD idx 0 + i2.samples.getD idx 0)) ∧
      (32767 < i1.samples.getD idx 0 + i2.samples.getD idx 0 →
        c2.samples[idx]? = some 32767) ∧
      (i1.samples.getD idx 0 + i2.samples.getD idx 0 < -32768 →
        c2.samples[idx]? = some (-32768)) := by
  have hmem1 : i1.samples.getD idx 0 ∈ i1.samples := by
    rw [List.getD_eq_getElem i1.samples 0 hl1]
    exact List.getElem_mem hl1
  have hmem2 : i2.samples.getD idx 0 ∈ i2.samples := by
    rw [List.getD_eq_getElem i2.samples 0 hl2]
    exact List.getElem_mem hl2
  obtain ⟨hb1a, hb1b⟩ := hs1 _ hmem1
  obtain ⟨hb2a, hb2b⟩ := hs2 _ hmem2
  -- step 1: fresh bucket from the first contributor
  have hb01 : Mixer.bucket0 t1 Mixer.initMixer i1 =
      ⟨(Mixer.msKey i1.start_ms : ℚ) * (Mixer.CHUNK_MS : ℚ), i1.sample_rate,
        i1.channels, [], 0, t1⟩ := rfl
  have hstep1 := Mixer.mixStep_contrib t1 Mixer.initMixer i1 hm1
    (by rw [hb01]) (by rw [hb01])
  set b1 := Mixer.contribBucket t1 (Mixer.bucket0 t1 Mixer.initMixer i1) i1
    with hb1def
  set st1 := Mixer.pruneIfDue t1 Mixer.initMixer.last_prune
    (fun k => if k = Mixer.msKey i1.start_ms then some b1
      else Mixer.initMixer.buckets k) with hst1def
  have hlk1 : st1.buckets (Mixer.msKey i1.start_ms) = some b1 := by
    rw [hst1def]
    apply Mixer.pruneIfDue_lookup_fresh
    · rw [if_pos rfl]
    · rfl
  -- step 2: the same bucket receives the second contributor
  have hb02 : Mixer.bucket0 t2 st1 i2 = b1 := by
    unfold Mixer.bucket0
    rw [← hkey, hlk1]
  have hb1rate : b1.sample_rate = i1.sample_rate := by
    rw [hb1def, hb01]
    rfl
  have hb1ch : b1.channels = i1.channels := by
    rw [hb1def, hb01]
    rfl
  have hb1sum : b1.sum = Mixer.satAccum [] i1.samples := by
    rw [hb1def, hb01]
    rfl
  have hb1max : b1.max_len = i1.samples.length := by
    rw [hb1def, hb01]
    show max 0 i1.samples.length = i1.samples.length
    omega
  have hstep2 := Mixer.mixStep_contrib t2 st1 i2 hm2
    (by rw [hb02, hb1rate, hr]) (by rw [hb02, hb1ch, hm1, hm2])
  refine ⟨_, _, _, _, hstep1, hstep2, ?_⟩
  -- the emitted sample at idx
  set b2 := Mixer.contribBucket t2 (Mixer.bucket0 t2 st1 i2) i2 with hb2def
  have hb2sum : b2.sum = Mixer.satAccum b1.sum i2.samples := by
    rw [hb2def, hb02]
    rfl
  have hb2max : b2.max_len = max b1.max_len i2.samples.length := by
    rw [hb2def, hb02]
    rfl
  have hsum1len : (Mixer.satAccum [] i1.samples).length = i1.samples.length := by
    rw [Mixer.satAccum_length]
    simp
  have hb2sumlen : b2.sum.length = max i1.samples.length i2.samples.length := by
    rw [hb2sum, Mixer.satAccum_length, hb1sum, hsum1len]
  have hidxsum : idx < b2.sum.length := by
    rw [hb2sumlen]
    omega
  have hidxmax : idx < b2.max_len := by
    rw [hb2max, hb1max]
    omega
  -- the accumulator value at idx is the exact sum
  have hv1 : (Mixer.satAccum [] i1.samples).getD idx 0
      = i1.samples.getD idx 0 := by
    rw [Mixer.satAccum_getD [] i1.samples idx hl1]
    have hnil : ([] : List Int).getD idx 0 = 0 := by simp
    rw [hnil]
    unfold Mixer.satAddI32
    omega
  have hv2 : b2.sum.getD idx 0
      = i1.samples.getD idx 0 + i2.samples.getD idx 0 := by
    rw [hb2sum, Mixer.satAccum_getD b1.sum i2.samples idx hl2, hb1sum, hv1]
    unfold Mixer.satAddI32
    omega
  have hsamples : (Mixer.emittedChunk b2).samples[idx]?
      = some (Mixer.clampI16 (i1.samples.getD idx 0 + i2.samples.getD idx 0)) := by
    show ((b2.sum.take b2.max_len).map Mixer.clampI16)[idx]?
      = some (Mixer.clampI16 (i1.samples.getD idx 0 + i2.samples.getD idx 0))
    rw [List.getElem?_map, List.getElem?_take, if_pos hidxmax,
      List.getElem?_eq_getElem hidxsum]
    have hge : b2.sum[idx] = b2.sum.getD idx 0 :=
      (List.getD_eq_getElem b2.sum 0 hidxsum).symm
    rw [hge, hv2]
    rfl
  refine ⟨hsamples, ?_, ?_⟩
  · intro hover
    rw [hsamples]
    have hcl : Mixer.clampI16 (i1.samples.getD idx 0 + i2.samples.getD idx 0)
        = 32767 := by
      unfold Mixer.clampI16
      omega
    rw [hcl]
  · intro hunder
    rw [hsamples]
    have hcl : Mixer.clampI16 (i1.samples.getD idx 0 + i2.samples.getD idx 0)
        = -32768 := by
      unfold Mixer.clampI16
      omega
    rw [hcl]

/-- C4 witness: two contributions of 20000 to the same bucket emit exactly
`i16::MAX`, via `c4_mixer_saturation`. -/
theorem c4_witness :
    ∃ st1 c1 st2 c2,
      Mixer.mixStep 0 Mixer.initMixer ⟨0, 48000, 1, [20000]⟩ = (st1, some c1) ∧
      Mixer.mixStep 0 st1 ⟨0, 48000, 1, [20000]⟩ = (st2, some c2) ∧
      c2.samples[0]? = some 32767 := by
  obtain ⟨st1, c1, st2, c2, h1, h2, hmain, hover, hunder⟩ :=
    c4_mixer_saturation 0 0 ⟨0, 48000, 1, [20000]⟩ ⟨0, 48000, 1, [20000]⟩ 0
      rfl rfl rfl rfl (by decide) (by decide) (by decide) (by decide)
  exact ⟨st1, c1, st2, c2, h1, h2, hover (by decide)⟩

/-- C5: every payload the offline demuxer's frame iterator yields is the
stored SPS entries then PPS entries — each with a 4-byte big-endian length
prefix, exactly as `extract_avcc` builds them — followed by the sample
bytes when the sync bit is set, and the bare sample bytes otherwise.  (The
source skips the prepend when the stored prefix is empty, which coincides
with prepending the empty prefix.) -/
theorem c5_keyframe_payload (sps pps : List (List Nat)) (sampleBytes : List Nat)
    (isKey : Bool) :
    Demux.framePayload (Demux.sps_pps_avcc sps pps) sampleBytes isKey
      = (if isKey then Demux.sps_pps_avcc sps pps else []) ++ sampleBytes := by
  unfold Demux.framePayload
  cases isKey with
  | false => simp
  | true =>
      by_cases h : Demux.sps_pps_avcc sps pps = []
      · simp [h]
      · simp [h]

/-- C7, counterexample: the F32 conversion uses the Rust `as i16` cast,
which truncates toward zero, not `round`.  For the sample 2/3 the scaled
value is 65534/3 ≈ 21844.67: the code produces 21844 while the claimed
rounding gives 21845. -/
theorem c7_counterexample :
    Dec.convert_to_i16 Dec.cexBuffer 1
      ≠ [round (Dec.clampQ (-1) 1 ((2 : ℚ) / 3) * 32767)] := by
  have h1 : Dec.convert_to_i16 Dec.cexBuffer 1 = [21844] := by
    show (List.range 1).flatMap (fun frame => (List.range 1).map fun ch =>
      Dec.truncToInt (Dec.clampQ (-1) 1 (Dec.pick [[(2 : ℚ) / 3]] 0 ch frame)
        * 32767)) = [21844]
    norm_num [show List.range 1 = [0] from rfl, Dec.pick, Dec.clampQ,
      Dec.truncToInt, max_def, min_def]
  have h2 : round (Dec.clampQ (-1) 1 ((2 : ℚ) / 3) * 32767) = 21845 := by
    norm_num [Dec.clampQ, round_eq]
  rw [h1, h2]
  simp

/-- C7 (amended): the offline decoder's sample conversion interleaves
`target_channels` values per frame (duplicating the last source channel when
short); each F32 sample maps to the TRUNCATION TOWARD ZERO of
`clamp(s, -1, 1) * 32767` (the Rust `as i16` cast); each S16 sample passes
through unchanged; each S32 sample maps to `s >> 16` (arithmetic shift =
floor division by 2^16); any other format yields an empty output. -/
theorem c7_convert_amended (chans : List (List ℚ)) (chansI : List (List Int))
    (frames target fr ch : Nat) (hfr : fr < frames) (hch : ch < target) :
    (Dec.convert_to_i16 (.F32 chans frames) target)[fr * target + ch]?
        = some (Dec.truncToInt (Dec.clampQ (-1) 1 (Dec.pick chans 0 ch fr)
          * 32767)) ∧
    (Dec.convert_to_i16 (.S16 chansI frames) target)[fr * target + ch]?
        = some (Dec.pick chansI 0 ch fr) ∧
    (Dec.convert_to_i16 (.S32 chansI frames) target)[fr * target + ch]?
        = some (Int.fdiv (Dec.pick chansI 0 ch fr) 65536) ∧
    (Dec.convert_to_i16 (.F32 chans frames) target).length = frames * target ∧
    Dec.convert_to_i16 .Other target = [] := by
  refine ⟨?_, ?_, ?_, ?_, rfl⟩
  · exact interleave_getElem
      (fun f c => Dec.truncToInt (Dec.clampQ (-1) 1 (Dec.pick chans 0 c f)
        * 32767)) frames target fr ch hfr hch
  · exact interleave_getElem (fun f c => Dec.pick chansI 0 c f)
      frames target fr ch hfr hch
  · exact interleave_getElem
      (fun f c => Int.fdiv (Dec.pick chansI 0 c f) 65536)
      frames target fr ch hfr hch
  · show ((List.range frames).flatMap fun f => (List.range target).map
      (fun c => Dec.truncToInt (Dec.clampQ (-1) 1 (Dec.pick chans 0 c f)
        * 32767))).length = frames * target
    rw [interleave_length]
    simp

/-- C7 witness: `c7_convert_amended` at a one-sample F32 buffer of value
1/2 — the conversion truncates 16383.5 to 16383. -/
theorem c7_witness :
    (Dec.convert_to_i16 (.F32 [[(1 : ℚ) / 2]] 1) 1)[0]? = some 16383 := by
  have h := (c7_convert_amended [[(1 : ℚ) / 2]] [] 1 1 0 0 (by norm_num)
    (by norm_num)).1
  norm_num [Dec.pick, Dec.clampQ, Dec.truncToInt] at h
  exact h

/-- C1, counterexample: the offline player sends the `video-config` text
BEFORE the mode-ack (src/foundry-player/src/main.rs:232-249), so the claimed
order "one mode-ack text, then the single video-config text" fails for the
offline player session: in the transcript of a playback with no frames the
config is at index 0 and the mode-ack at index 1. -/
theorem c1_counterexample :
    ¬ Session.AckBeforeConfig
      (Session.playbackTranscript ⟨0, 0, []⟩ none 0 [] 1) := by
  intro h
  have ht : Session.playbackTranscript ⟨0, 0, []⟩ none 0 [] 1
      = [Session.ServerMsg.videoConfig ⟨0, 0, []⟩,
         Session.ServerMsg.modeAckCodec Session.VideoCodec.Avc] := rfl
  rw [ht] at h
  have h2 := h 1 0 (by norm_num) (by norm_num) rfl rfl
  omega

/-- C1 (amended): in the live session the first message is the single
mode-ack, at most one `video-config` is ever sent, and every video binary is
strictly preceded by the `video-config` (audio binaries may precede it); in
the offline player session the `video-config` comes FIRST, the mode-ack
second, the config appears exactly once, and every video binary follows it.
This holds for every client behaviour, every encoder behaviour, and every
demuxed file. -/
theorem c1_ordering_amended (modeReq : Option Session.VideoCodec)
    (events : List Session.Event) (cfg : Session.ConfigPayload)
    (pcmOpt : Option Session.DecodedPcm) (startT : ℚ)
    (frames : List Session.DemuxFrame) (passes : Nat) :
    (∃ c, (Session.sessionTranscript modeReq events).head?
      = some (Session.ServerMsg.modeAckCodec c)) ∧
    (Session.sessionTranscript modeReq events).countP Session.isVideoConfig
      ≤ 1 ∧
    Session.ConfigBeforeBinary (Session.sessionTranscript modeReq events) ∧
    (Session.playbackTranscript cfg pcmOpt startT frames passes)[0]?
      = some (Session.ServerMsg.videoConfig cfg) ∧
    (Session.playbackTranscript cfg pcmOpt startT frames passes)[1]?
      = some (Session.ServerMsg.modeAckCodec Session.VideoCodec.Avc) ∧
    (Session.playbackTranscript cfg pcmOpt startT frames passes).countP
      Session.isVideoConfig = 1 ∧
    Session.ConfigBeforeBinary
      (Session.playbackTranscript cfg pcmOpt startT frames passes) := by
  refine ⟨?_, ?_, ?_, ?_, ?_, ?_, ?_⟩
  · unfold Session.sessionTranscript
    dsimp only
    split_ifs with hok
    · exact ⟨modeReq.getD .Avc, rfl⟩
    · exact ⟨modeReq.getD .Avc, rfl⟩
  · unfold Session.sessionTranscript
    dsimp only
    split_ifs with hok
    · rw [List.countP_cons]
      have hack : Session.isVideoConfig
          (Session.ServerMsg.modeAckCodec (modeReq.getD .Avc)) = false := rfl
      rw [hack]
      have hcnt := Session.runVideo_cfg_count events Session.initSess
      have hcs : Session.initSess.configSent = false := rfl
      rw [hcs] at hcnt
      simp at hcnt
      simp
      omega
    · have h1 : Session.isVideoConfig
          (Session.ServerMsg.modeAckCodec (modeReq.getD .Avc)) = false := rfl
      have h2 : Session.isVideoConfig Session.ServerMsg.modeAckUnavailable
          = false := rfl
      rw [List.countP_cons, List.countP_cons, h1, h2]
      norm_num
  · unfold Session.sessionTranscript
    dsimp only
    split_ifs with hok
    · exact Session.cbb_cons_nonbin _ _ rfl
        (Session.runVideo_cbb events Session.initSess rfl)
    · exact Session.cbb_cons_nonbin _ _ rfl
        (Session.cbb_cons_nonbin _ _ rfl Session.cbb_nil)
  · unfold Session.playbackTranscript
    rfl
  · unfold Session.playbackTranscript
    simp
  · unfold Session.playbackTranscript
    rw [List.countP_cons, List.countP_cons]
    have hcfg : Session.isVideoConfig (Session.ServerMsg.videoConfig cfg)
        = true := rfl
    have hack : Session.isVideoConfig
        (Session.ServerMsg.modeAckCodec Session.VideoCodec.Avc) = false := rfl
    rw [hcfg, hack]
    have hbody : ((List.range passes).flatMap
        (fun _ => Session.onePassMsgs pcmOpt startT frames)).countP
        Session.isVideoConfig = 0 := by
      rw [List.countP_eq_zero]
      intro m hm
      exact Bool.eq_false_iff.mp
        (Session.playback_body_no_cfg pcmOpt startT frames passes m hm)
    rw [hbody]
    norm_num
  · unfold Session.playbackTranscript
    exact Session.cbb_cons_cfg cfg _

/-- C1 witness: `c1_ordering_amended` applied to a trivial session and
playback. -/
theorem c1_witness :
    (Session.playbackTranscript ⟨0, 0, []⟩ none 0 [] 1)[0]?
      = some (Session.ServerMsg.videoConfig ⟨0, 0, []⟩) :=
  (c1_ordering_amended none [] ⟨0, 0, []⟩ none 0 [] 1).2.2.2.1

/-- C8: HEVC is rejected at pipeline construction (`EncoderImpl::new`,
src/src/video_pipeline.rs:61), and a session whose client requested HEVC
consists of exactly the codec mode-ack followed by the mode-ack carrying
reason video-unavailable — no video binary is ever sent, whatever else
happens. -/
theorem c8_hevc_rejected :
    Session.pipelineOk Session.VideoCodec.Hevc = false ∧
    ∀ events : List Session.Event,
      Session.sessionTranscript (some Session.VideoCodec.Hevc) events
        = [Session.ServerMsg.modeAckCodec Session.VideoCodec.Hevc,
           Session.ServerMsg.modeAckUnavailable] ∧
      ∀ m ∈ Session.sessionTranscript (some Session.VideoCodec.Hevc) events,
        Session.isVideoBinary m = false := by
  refine ⟨rfl, fun events => ⟨rfl, ?_⟩⟩
  intro m hm
  have ht : Session.sessionTranscript (some Session.VideoCodec.Hevc) events
      = [Session.ServerMsg.modeAckCodec Session.VideoCodec.Hevc,
         Session.ServerMsg.modeAckUnavailable] := rfl
  rw [ht] at hm
  rcases List.mem_cons.mp hm with hm | hm
  · rw [hm]
    rfl
  · rcases List.mem_cons.mp hm with hm | hm
    · rw [hm]
      rfl
    · simp at hm

/-- C8 witness: `c8_hevc_rejected` at the empty event list, naming the
video-unavailable ack explicitly. -/
theorem c8_witness :
    Session.sessionTranscript (some Session.VideoCodec.Hevc) []
      = [Session.ServerMsg.modeAckCodec Session.VideoCodec.Hevc,
         Session.ServerMsg.modeAckUnavailable] ∧
    Session.isVideoBinary Session.ServerMsg.modeAckUnavailable = false :=
  ⟨(c8_hevc_rejected.2 []).1,
   (c8_hevc_rejected.2 []).2 Session.ServerMsg.modeAckUnavailable
     (by rw [(c8_hevc_rejected.2 []).1]; simp)⟩

end Foundry
